import Mathlib

/-!
# E-money ledger (`main.go`): shallow embedding and verified properties

The Go program keeps its whole state in package-level variables (`accounts`,
`registrations`, `topUpRequests`, `currentUser`, `nextTopUpID`) and mutates it
from functions that read their arguments line by line from a `bufio.Scanner`.

Modelling conventions:

* `float64` is modelled by `F64`: NaN, the two infinities, and finite values in
  the IEEE-754 binary64 encoding (integer significand times a power of two),
  with round-to-nearest, ties-to-even addition and subtraction and the IEEE
  comparisons (every comparison with NaN is false). The two zeros are
  identified: `+`, `-`, `<` and `<=` cannot tell them apart.
* `*Account` pointers are indices into a heap of `Account` objects; an index
  outside the heap plays the role of `nil`, and dereferencing it is the Go
  run-time panic, modelled by the result `none`.
* Go maps are association lists with unique keys.
* The scanner is the list of the lines not yet read; `scanner.Scan()` fails
  exactly on the empty list.
* `strconv.ParseFloat` belongs to the Go standard library and is a parameter
  `parse`; `none` is a non-nil error.
* `time.Now().Format(time.RFC3339)` is passed in as an explicit string.
* Of the output only the `fmt.Println` messages are recorded.
* `int` identifiers are natural numbers: a counter reaches `2^63` only after
  `2^63` appends to a slice, which no address space can hold.
* The mutex is not modelled: the program has a single goroutine.
-/


/-! ## `float64` -/

/-- Values of Go's `float64`. `fin m e` is the finite number `m * 2^e`; the
values produced by the operations below are in canonical binary64 form
(zero is `fin 0 0`; otherwise `e = -1074` and `|m| < 2^53`, or `-1074 < e ≤ 971`
and `2^52 ≤ |m| < 2^53`). -/
inductive F64 where
  | nan : F64
  | inf (neg : Bool) : F64
  | fin (m : ℤ) (e : ℤ) : F64
deriving DecidableEq

namespace F64

/-- The number `2^(2^i)`, by repeated squaring. -/
def pow2pow : ℕ → ℕ
  | 0 => 2
  | i + 1 => pow2pow i * pow2pow i

/-- Binary search for the position of the leading bit: with `m < 2^(2^i)` the
result is `k` plus the base-2 logarithm of `m`, rounded down. -/
def log2Aux : ℕ → ℕ → ℕ → ℕ
  | 0, _, k => k
  | i + 1, m, k =>
    if pow2pow i ≤ m then log2Aux i (m / pow2pow i) (k + 2 ^ i) else log2Aux i m k

/-- Number of binary digits of `n` (exact for `n < 2^4096`). -/
def bitLen (n : ℕ) : ℕ := if n = 0 then 0 else log2Aux 12 n 0 + 1

/-- Round the positive magnitude `n * 2^e` (with `e ≥ -1074`) to binary64,
nearest with ties to even; `none` is overflow to infinity. -/
def roundNat (n : ℕ) (e : ℤ) : Option (ℕ × ℤ) :=
  let bits := bitLen n
  if bits ≤ 53 then
    let sh := min (53 - bits) (e + 1074).toNat
    some (n * 2 ^ sh, e - sh)
  else
    let sh := bits - 53
    let q := n / 2 ^ sh
    let r := n % 2 ^ sh
    let half := 2 ^ (sh - 1)
    let q' := if r < half then q else if half < r then q + 1 else if q % 2 = 0 then q else q + 1
    let me : ℕ × ℤ := if q' = 2 ^ 53 then (2 ^ 52, e + sh + 1) else (q', e + sh)
    if 971 < me.2 then none else some me

/-- Round the exact value `d * 2^e` to binary64. -/
def round (d : ℤ) (e : ℤ) : F64 :=
  if d = 0 then fin 0 0
  else
    match roundNat d.natAbs e with
    | none => inf (decide (d < 0))
    | some (m, e') => if d < 0 then fin (-(m : ℤ)) e' else fin (m : ℤ) e'

/-- The `float64` nearest to the integer `n`. -/
def ofInt (n : ℤ) : F64 := round n 0

/-- The constant `0`. -/
def zero : F64 := fin 0 0

/-- Go's `x + y` on `float64`. -/
def add : F64 → F64 → F64
  | fin a ea, fin b eb =>
      let e := min ea eb
      round (a * 2 ^ (ea - e).toNat + b * 2 ^ (eb - e).toNat) e
  | fin _ _, inf s => inf s
  | inf s, fin _ _ => inf s
  | inf s, inf t => if s = t then inf s else nan
  | _, _ => nan

/-- Go's `-x` on `float64`. -/
def neg : F64 → F64
  | nan => nan
  | inf s => inf (!s)
  | fin m e => fin (-m) e

/-- Go's `x - y` on `float64`. -/
def sub (x y : F64) : F64 := add x (neg y)

/-- Go's `x < y` on `float64`. -/
def lt : F64 → F64 → Bool
  | fin a ea, fin b eb =>
      let e := min ea eb
      decide (a * 2 ^ (ea - e).toNat < b * 2 ^ (eb - e).toNat)
  | fin _ _, inf s => !s
  | inf s, fin _ _ => s
  | inf s, inf t => s && !t
  | _, _ => false

/-- Go's `x <= y` on `float64`. -/
def le : F64 → F64 → Bool
  | fin a ea, fin b eb =>
      let e := min ea eb
      decide (a * 2 ^ (ea - e).toNat ≤ b * 2 ^ (eb - e).toNat)
  | fin _ _, inf s => !s
  | inf s, fin _ _ => s
  | inf s, inf t => s || !t
  | _, _ => false

/-- The real number a finite value stands for (`none` for NaN and infinities). -/
def toRat : F64 → Option ℚ
  | fin m e => some ((m : ℚ) * (2 : ℚ) ^ e)
  | _ => none

end F64

/-! ## Data model -/

/-- Go `type Transaction struct`. The field `Type` is spelled `Type_`. -/
structure Transaction where
  ID : ℕ
  AccountID : String
  Type_ : String
  Amount : F64
  Date : String
  Details : String
deriving DecidableEq

/-- Go `type Account struct`. -/
structure Account where
  ID : String
  Password : String
  Balance : F64
  Approved : Bool
  Transactions : List Transaction
deriving DecidableEq

/-- Go `type Registration struct`. -/
structure Registration where
  ID : String
  Password : String
deriving DecidableEq

/-- Go `type TopUpRequest struct`. -/
structure TopUpRequest where
  ID : ℕ
  AccountID : String
  Amount : F64
  Date : String
  Approved : Bool
deriving DecidableEq

/-- Go `map[string]V` as an association list. -/
abbrev GoMap (V : Type) := List (String × V)

namespace GoMap

/-- Go `v, exists := m[k]`. -/
def get? {V : Type} : GoMap V → String → Option V
  | [], _ => none
  | (k', v) :: rest, k => if k' = k then some v else get? rest k

/-- Go `m[k] = v`. -/
def set {V : Type} : GoMap V → String → V → GoMap V
  | [], k, v => [(k, v)]
  | (k', v') :: rest, k, v => if k' = k then (k, v) :: rest else (k', v') :: set rest k v

/-- Go `delete(m, k)`. -/
def delete {V : Type} : GoMap V → String → GoMap V
  | [], _ => []
  | (k', v') :: rest, k => if k' = k then delete rest k else (k', v') :: delete rest k

end GoMap

/-- The package-level variables of `main.go`, with the heap of `Account`
objects that the pointers in `accounts` and `currentUser` refer to. -/
structure State where
  heap : List Account
  accounts : GoMap ℕ
  registrations : GoMap Registration
  topUpRequests : List TopUpRequest
  currentUser : Option ℕ
  nextTopUpID : ℕ
deriving DecidableEq

/-- What a call leaves behind: the new state, the unread input lines and the
`fmt.Println` messages it wrote. -/
structure Run where
  st : State
  sc : List String
  out : List String
deriving DecidableEq

namespace State

/-- Dereference of an `*Account`; `none` is the nil-pointer panic. -/
def deref (s : State) (p : ℕ) : Option Account := s.heap[p]?

/-- Store through an `*Account`. -/
def store (s : State) (p : ℕ) (a : Account) : State := { s with heap := s.heap.set p a }

/-- The account object the table holds under `id`, if any. -/
def account? (s : State) (id : String) : Option Account :=
  (GoMap.get? s.accounts id).bind s.deref

/-- The object `currentUser` points to, if any. -/
def user? (s : State) : Option Account := s.currentUser.bind s.deref

end State

/-! ## Operations -/

/-- Go `registerAccount`: reads an id and a password; refuses only when the id
is a key of `accounts` and also a key of `registrations` (the nested `if`). -/
def registerAccount (s : State) (sc : List String) : Run :=
  match sc with
  | [] => ⟨s, [], []⟩
  | id :: sc1 =>
    match sc1 with
    | [] => ⟨s, [], []⟩
    | password :: sc2 =>
      if (GoMap.get? s.accounts id).isSome && (GoMap.get? s.registrations id).isSome then
        ⟨s, sc2, ["Account already exists."]⟩
      else
        ⟨{ s with registrations := GoMap.set s.registrations id ⟨id, password⟩ }, sc2,
          ["Registration submitted for approval."]⟩

/-- Go `loginadm`: on the pair admin/admin `currentUser` points to a freshly
allocated object that is not in the accounts table. -/
def loginadm (s : State) (sc : List String) : Run × Bool :=
  match sc with
  | [] => (⟨s, [], []⟩, false)
  | id :: sc1 =>
    match sc1 with
    | [] => (⟨s, [], []⟩, false)
    | password :: sc2 =>
      if id = "admin" ∧ password = "admin" then
        (⟨{ s with heap := s.heap ++ [⟨"admin", "admin", F64.zero, false, []⟩],
                   currentUser := some s.heap.length }, sc2, []⟩, true)
      else
        (⟨s, sc2, ["Invalid admin credentials."]⟩, false)

/-- Go `loginusr`. `none` is the panic of `account.Password` on a nil entry. -/
def loginusr (s : State) (sc : List String) : Option (Run × Bool) :=
  match sc with
  | [] => some (⟨s, [], []⟩, false)
  | id :: sc1 =>
    match sc1 with
    | [] => some (⟨s, [], []⟩, false)
    | password :: sc2 =>
      match GoMap.get? s.accounts id with
      | none => some (⟨s, sc2, ["Invalid credentials or account not approved."]⟩, false)
      | some p =>
        match s.deref p with
        | none => none
        | some account =>
          if account.Password ≠ password ∨ account.Approved = false then
            some (⟨s, sc2, ["Invalid credentials or account not approved."]⟩, false)
          else
            some (⟨{ s with currentUser := some p }, sc2, []⟩, true)

/-- The menus' `currentUser = nil`. -/
def logout (s : State) : State := { s with currentUser := none }

/-- Loop of Go `handleRegistrations` over the keys in the order `order` in
which the map iteration happens to visit them. -/
def handleRegistrationsLoop : List String → State → List String → Run
  | [], s, sc => ⟨s, sc, []⟩
  | id :: rest, s, sc =>
    match GoMap.get? s.registrations id with
    | none => handleRegistrationsLoop rest s sc
    | some reg =>
      match sc with
      | [] => ⟨s, [], []⟩
      | ans :: sc1 =>
        let s1 : State :=
          if ans = "y" then
            { s with heap := s.heap ++ [⟨id, reg.Password, F64.zero, true, []⟩],
                     accounts := GoMap.set s.accounts id s.heap.length }
          else s
        let s2 : State := { s1 with registrations := GoMap.delete s1.registrations id }
        let r := handleRegistrationsLoop rest s2 sc1
        ⟨r.st, r.sc, (if ans = "y" then "Account approved." else "Account rejected.") :: r.out⟩

/-- Go `handleRegistrations`; `order` is the iteration order of the map. -/
def handleRegistrations (order : List String) (s : State) (sc : List String) : Run :=
  handleRegistrationsLoop order s sc

/-- Go `transferMoney`. `now1` and `now2` are the two readings of the clock;
`none` is a nil-pointer panic. -/
def transferMoney (parse : String → Option F64) (now1 now2 : String) (s : State)
    (sc : List String) : Option Run :=
  match sc with
  | [] => some ⟨s, [], []⟩
  | recipientID :: sc1 =>
    match sc1 with
    | [] => some ⟨s, [], []⟩
    | amountStr :: sc2 =>
      match parse amountStr with
      | none => some ⟨s, sc2, ["Invalid amount."]⟩
      | some amount =>
        if F64.le amount F64.zero then some ⟨s, sc2, ["Invalid amount."]⟩
        else
          match GoMap.get? s.accounts recipientID with
          | none => some ⟨s, sc2, ["Recipient account not found."]⟩
          | some recipient =>
            match s.currentUser with
            | none => none
            | some cu =>
              match s.deref cu with
              | none => none
              | some c0 =>
                if F64.lt c0.Balance amount then some ⟨s, sc2, ["Insufficient funds."]⟩
                else
                  -- currentUser.Balance -= amount
                  let s1 := s.store cu { c0 with Balance := F64.sub c0.Balance amount }
                  -- recipient.Balance += amount
                  match s1.deref recipient with
                  | none => none
                  | some r1 =>
                    let s2 := s1.store recipient { r1 with Balance := F64.add r1.Balance amount }
                    -- currentUser.Transactions = append(currentUser.Transactions, transaction)
                    match s2.deref cu with
                    | none => none
                    | some c2 =>
                      let transaction : Transaction :=
                        ⟨c2.Transactions.length + 1, c2.ID, "Transfer", amount, now1,
                          "Transferred to " ++ recipientID⟩
                      let s3 := s2.store cu
                        { c2 with Transactions := c2.Transactions ++ [transaction] }
                      -- recipient.Transactions = append(recipient.Transactions, ...)
                      match s3.deref recipient, s3.deref cu with
                      | some r3, some c3 =>
                        let s4 := s3.store recipient
                          { r3 with Transactions := r3.Transactions ++
                              [⟨r3.Transactions.length + 1, r3.ID, "Transfer", amount, now2,
                                "Received from " ++ c3.ID⟩] }
                        some ⟨s4, sc2, ["Transfer successful."]⟩
                      | _, _ => none

/-- Go `makePayment`. `none` is the panic on a nil `currentUser`. -/
def makePayment (parse : String → Option F64) (now : String) (s : State)
    (sc : List String) : Option Run :=
  match sc with
  | [] => some ⟨s, [], []⟩
  | paymentType :: sc1 =>
    match sc1 with
    | [] => some ⟨s, [], []⟩
    | amountStr :: sc2 =>
      match parse amountStr with
      | none => some ⟨s, sc2, ["Invalid amount."]⟩
      | some amount =>
        if F64.le amount F64.zero then some ⟨s, sc2, ["Invalid amount."]⟩
        else
          match s.currentUser with
          | none => none
          | some cu =>
            match s.deref cu with
            | none => none
            | some c0 =>
              if F64.lt c0.Balance amount then some ⟨s, sc2, ["Insufficient funds."]⟩
              else
                let c1 : Account := { c0 with Balance := F64.sub c0.Balance amount }
                let transaction : Transaction :=
                  ⟨c1.Transactions.length + 1, c1.ID, "Payment", amount, now, paymentType⟩
                some ⟨s.store cu { c1 with Transactions := c1.Transactions ++ [transaction] },
                  sc2, ["Payment successful."]⟩

/-- Go `topUpBalance`. `none` is the panic of `currentUser.ID` on nil. -/
def topUpBalance (parse : String → Option F64) (now : String) (s : State)
    (sc : List String) : Option Run :=
  match sc with
  | [] => some ⟨s, [], []⟩
  | amountStr :: sc1 =>
    match parse amountStr with
    | none => some ⟨s, sc1, ["Invalid amount."]⟩
    | some amount =>
      if F64.le amount F64.zero then some ⟨s, sc1, ["Invalid amount."]⟩
      else
        match s.user? with
        | none => none
        | some c =>
          some ⟨{ s with
                  topUpRequests := s.topUpRequests ++ [⟨s.nextTopUpID, c.ID, amount, now, false⟩],
                  nextTopUpID := s.nextTopUpID + 1 }, sc1, ["Top up request submitted."]⟩

/-- Loop of Go `handleTopUpRequests` over the requests from index `i` on;
`todo` are the requests not yet visited. `none` is the panic of
`account.Balance` when `accounts[request.AccountID]` is nil. -/
def handleTopUpLoop : List TopUpRequest → ℕ → State → List String → Option Run
  | [], _, s, sc => some ⟨s, sc, []⟩
  | request :: todo, i, s, sc =>
    if request.Approved then handleTopUpLoop todo (i + 1) s sc
    else
      match sc with
      | [] => some ⟨s, [], []⟩
      | ans :: sc1 =>
        if ans = "y" then
          match GoMap.get? s.accounts request.AccountID with
          | none => none
          | some p =>
            match s.deref p with
            | none => none
            | some account =>
              let s1 := s.store p { account with Balance := F64.add account.Balance request.Amount }
              let s2 : State :=
                { s1 with topUpRequests :=
                    s1.topUpRequests.modify (fun r => { r with Approved := true }) i }
              (handleTopUpLoop todo (i + 1) s2 sc1).map
                (fun r => ⟨r.st, r.sc, "Top up approved." :: r.out⟩)
        else
          (handleTopUpLoop todo (i + 1) s sc1).map
            (fun r => ⟨r.st, r.sc, "Top up rejected." :: r.out⟩)

/-- Go `handleTopUpRequests`. -/
def handleTopUpRequests (s : State) (sc : List String) : Option Run :=
  handleTopUpLoop s.topUpRequests 0 s sc

/-! ## Sample data -/

/-- The values `strconv.ParseFloat` returns on a few texts; every other text
is treated as a syntax error. -/
def sampleParse : String → Option F64
  | "NaN" => some F64.nan
  | "Inf" => some (F64.inf false)
  | "-5" => some (F64.ofInt (-5))
  | "0" => some (F64.ofInt 0)
  | "1" => some (F64.ofInt 1)
  | "30" => some (F64.ofInt 30)
  | "40" => some (F64.ofInt 40)
  | "50" => some (F64.ofInt 50)
  | "80" => some (F64.ofInt 80)
  | _ => none

/-- A ledger with the approved accounts alice (balance `a`) and bob (balance
`b`), alice being logged in. -/
def twoAccounts (a b : F64) : State :=
  { heap := [⟨"alice", "pw1", a, true, []⟩, ⟨"bob", "pw2", b, true, []⟩],
    accounts := [("alice", 0), ("bob", 1)],
    registrations := [],
    topUpRequests := [],
    currentUser := some 0,
    nextTopUpID := 1 }

/-- Balance of the account stored under `id`. -/
def State.balance? (s : State) (id : String) : Option F64 :=
  (s.account? id).map Account.Balance

/-- History of the account stored under `id`. -/
def State.history? (s : State) (id : String) : Option (List Transaction) :=
  (s.account? id).map Account.Transactions

/-! ## Facts about `float64` comparisons -/

namespace F64

theorem le_zero_eq_false_of_pos (a : F64) (h : lt zero a = true) : le a zero = false := by
  cases a with
  | nan => simp [lt, zero] at h
  | inf s => cases s <;> simp_all [lt, le, zero]
  | fin m e =>
    simp only [lt, zero, zero_mul, decide_eq_true_eq] at h
    simp only [le, zero, zero_mul, decide_eq_false_iff_not, not_le]
    have hm : 0 < m := by
      by_contra hneg
      push_neg at hneg
      have : m * 2 ^ (e - min 0 e).toNat ≤ 0 :=
        mul_nonpos_of_nonpos_of_nonneg hneg (by positivity)
      omega
    positivity

theorem lt_eq_false_of_le (a b : F64) (h : le a b = true) : lt b a = false := by
  cases a with
  | nan => simp [le] at h
  | inf s =>
    cases b with
    | nan => simp [le] at h
    | inf t => cases s <;> cases t <;> simp_all [lt, le]
    | fin m e => cases s <;> simp_all [lt, le]
  | fin m e =>
    cases b with
    | nan => simp [le] at h
    | inf t => cases t <;> simp_all [lt, le]
    | fin m' e' =>
      simp only [le, decide_eq_true_eq] at h
      simp only [lt, decide_eq_false_iff_not, not_lt]
      rw [min_comm e' e]
      exact h

end F64

/-! ## Successful transfers and payments -/

/-- Entry appended to the sender's history by a transfer. -/
def sentEntry (c : Account) (amount : F64) (now recipientID : String) : Transaction :=
  ⟨c.Transactions.length + 1, c.ID, "Transfer", amount, now, "Transferred to " ++ recipientID⟩

/-- Entry appended to the recipient's history by a transfer from `senderID`. -/
def receivedEntry (r : Account) (amount : F64) (now senderID : String) : Transaction :=
  ⟨r.Transactions.length + 1, r.ID, "Transfer", amount, now, "Received from " ++ senderID⟩

/-- The sender object after a transfer to another object. -/
def debited (c : Account) (amount : F64) (now recipientID : String) : Account :=
  { c with Balance := F64.sub c.Balance amount,
           Transactions := c.Transactions ++ [sentEntry c amount now recipientID] }

/-- The recipient object after a transfer from another object. -/
def credited (r : Account) (amount : F64) (now senderID : String) : Account :=
  { r with Balance := F64.add r.Balance amount,
           Transactions := r.Transactions ++ [receivedEntry r amount now senderID] }

theorem transferMoney_distinct (parse : String → Option F64) (now1 now2 : String) (s : State)
    (recipientID amountStr : String) (rest : List String) (amount : F64) (cu p : ℕ)
    (c0 r0 : Account)
    (hparse : parse amountStr = some amount) (hpos : F64.le amount F64.zero = false)
    (hrec : GoMap.get? s.accounts recipientID = some p) (hcu : s.currentUser = some cu)
    (hc : s.deref cu = some c0) (hr : s.deref p = some r0)
    (hfunds : F64.lt c0.Balance amount = false) (hne : cu ≠ p) :
    transferMoney parse now1 now2 s (recipientID :: amountStr :: rest) =
      some ⟨(s.store cu (debited c0 amount now1 recipientID)).store p
              (credited r0 amount now2 c0.ID), rest, ["Transfer successful."]⟩ := by
  simp only [State.deref] at hc hr
  have hculen : cu < s.heap.length := (List.getElem?_eq_some.mp hc).1
  have hplen : p < s.heap.length := (List.getElem?_eq_some.mp hr).1
  have hr' : s.heap[p] = r0 := (List.getElem?_eq_some.mp hr).2
  simp [transferMoney, hparse, hpos, hrec, hcu, State.deref, State.store, hc, hr, hfunds,
    List.getElem?_set, hne, hne.symm, hculen, hplen, debited, credited, sentEntry,
    receivedEntry, hr']
  apply List.ext_getElem?
  intro i
  simp only [List.getElem?_set, List.length_set]
  split_ifs <;> simp_all

theorem transferMoney_self (parse : String → Option F64) (now1 now2 : String) (s : State)
    (recipientID amountStr : String) (rest : List String) (amount : F64) (cu : ℕ)
    (c0 : Account)
    (hparse : parse amountStr = some amount) (hpos : F64.le amount F64.zero = false)
    (hrec : GoMap.get? s.accounts recipientID = some cu) (hcu : s.currentUser = some cu)
    (hc : s.deref cu = some c0)
    (hfunds : F64.lt c0.Balance amount = false) :
    transferMoney parse now1 now2 s (recipientID :: amountStr :: rest) =
      some ⟨s.store cu
              { c0 with
                Balance := F64.add (F64.sub c0.Balance amount) amount,
                Transactions := c0.Transactions ++
                  [⟨c0.Transactions.length + 1, c0.ID, "Transfer", amount, now1,
                      "Transferred to " ++ recipientID⟩,
                    ⟨c0.Transactions.length + 2, c0.ID, "Transfer", amount, now2,
                      "Received from " ++ c0.ID⟩] }, rest, ["Transfer successful."]⟩ := by
  simp only [State.deref] at hc
  have hculen : cu < s.heap.length := (List.getElem?_eq_some.mp hc).1
  simp [transferMoney, hparse, hpos, hrec, hcu, State.deref, State.store, hc, hfunds,
    List.getElem?_set, hculen]

theorem makePayment_ok (parse : String → Option F64) (now : String) (s : State)
    (paymentType amountStr : String) (rest : List String) (amount : F64) (cu : ℕ)
    (c0 : Account)
    (hparse : parse amountStr = some amount) (hpos : F64.le amount F64.zero = false)
    (hcu : s.currentUser = some cu) (hc : s.deref cu = some c0)
    (hfunds : F64.lt c0.Balance amount = false) :
    makePayment parse now s (paymentType :: amountStr :: rest) =
      some ⟨s.store cu
              { c0 with
                Balance := F64.sub c0.Balance amount,
                Transactions := c0.Transactions ++
                  [⟨c0.Transactions.length + 1, c0.ID, "Payment", amount, now,
                      paymentType⟩] }, rest, ["Payment successful."]⟩ := by
  simp [makePayment, hparse, hpos, hcu, hc, hfunds, State.store]

namespace State

theorem deref_store_same (s : State) (p : ℕ) (a b : Account) (h : s.deref p = some b) :
    (s.store p a).deref p = some a := by
  simp only [deref] at h
  have hlen : p < s.heap.length := (List.getElem?_eq_some.mp h).1
  simp [deref, store, List.getElem?_set, hlen]

theorem deref_store_ne (s : State) (p q : ℕ) (a : Account) (h : q ≠ p) :
    (s.store p a).deref q = s.deref q := by
  simp [deref, store, List.getElem?_set, h.symm]

end State

/-! ## C1: balances never become negative -/

/-- C1 (evaluation at the failing input): alice has balance 50 and bob 0, both
non-negative; alice pays for "food" and types the amount `NaN`, which
`strconv.ParseFloat` accepts. Neither `amount <= 0` nor `balance < amount`
holds for NaN, so the payment is accepted and alice's balance becomes NaN,
for which `0 <= balance` is false. -/
theorem C1_makePayment_NaN_breaks_nonneg :
    F64.le F64.zero (F64.ofInt 50) = true ∧ F64.le F64.zero (F64.ofInt 0) = true ∧
    (makePayment sampleParse "t" (twoAccounts (F64.ofInt 50) (F64.ofInt 0)) ["food", "NaN"]).map
        (fun r => (r.out, r.st.balance? "alice")) =
      some (["Payment successful."], some F64.nan) ∧
    F64.le F64.zero F64.nan = false := by
  refine ⟨by decide, by decide, ?_, by decide⟩
  rw [makePayment_ok sampleParse "t" (twoAccounts (F64.ofInt 50) (F64.ofInt 0)) "food" "NaN" []
    F64.nan 0 ⟨"alice", "pw1", F64.ofInt 50, true, []⟩ rfl (by decide) rfl rfl (by decide)]
  rfl

/-! ## C2: conservation -/

/-- C2 (counterexample): alice has 3 and bob 2^53 = 9007199254740992; alice
transfers 1 to bob. The call succeeds, alice has 2 and bob still 2^53, so the
two balances add up to 2^53 + 2 after the call and to 2^53 + 3 before it (in
`float64` the two sums are 2^53 + 2 and 2^53 + 4). -/
theorem C2_conservation_counterexample :
    F64.lt F64.zero (F64.ofInt 1) = true ∧ F64.le (F64.ofInt 1) (F64.ofInt 3) = true ∧
    (transferMoney sampleParse "t" "t" (twoAccounts (F64.ofInt 3) (F64.ofInt 9007199254740992))
        ["bob", "1"]).map (fun r => (r.out, r.st.balance? "alice", r.st.balance? "bob")) =
      some (["Transfer successful."], some (F64.ofInt 2), some (F64.ofInt 9007199254740992)) ∧
    F64.add (F64.ofInt 2) (F64.ofInt 9007199254740992) ≠
      F64.add (F64.ofInt 3) (F64.ofInt 9007199254740992) ∧
    (F64.ofInt 2).toRat = some 2 ∧ (F64.ofInt 3).toRat = some 3 ∧
    (F64.ofInt 9007199254740992).toRat = some 9007199254740992 := by
  have h2 : F64.ofInt 2 = F64.fin (2 ^ 52) (-51) := by decide
  have h3 : F64.ofInt 3 = F64.fin (3 * 2 ^ 51) (-51) := by decide
  have h53 : F64.ofInt 9007199254740992 = F64.fin (2 ^ 52) 1 := by decide
  refine ⟨by decide, by decide, ?_, by decide, ?_, ?_, ?_⟩
  · rw [transferMoney_distinct sampleParse "t" "t"
      (twoAccounts (F64.ofInt 3) (F64.ofInt 9007199254740992)) "bob" "1" [] (F64.ofInt 1) 0 1
      ⟨"alice", "pw1", F64.ofInt 3, true, []⟩
      ⟨"bob", "pw2", F64.ofInt 9007199254740992, true, []⟩
      rfl (by decide) rfl rfl rfl rfl (by decide) (by decide)]
    decide
  · rw [h2]; norm_num [F64.toRat]
  · rw [h3]; norm_num [F64.toRat]
  · rw [h53]; norm_num [F64.toRat]

/-- C2 (amended): a transfer with a positive amount, an existing recipient and
a sender balance at least the amount succeeds; the sender's balance becomes
the `float64` difference and the recipient's the `float64` sum (for a transfer
to oneself the balance becomes `(balance - amount) + amount` in `float64`),
every other account object and the accounts table are unchanged, and when
neither `float64` operation rounds the exact sum of the two balances is the
same as before. -/
theorem C2_transfer_balances (parse : String → Option F64) (now1 now2 : String) (s : State)
    (recipientID amountStr : String) (rest : List String) (amount : F64) (cu p : ℕ)
    (c0 r0 : Account)
    (hparse : parse amountStr = some amount) (hpos : F64.lt F64.zero amount = true)
    (hrec : GoMap.get? s.accounts recipientID = some p) (hcu : s.currentUser = some cu)
    (hc : s.deref cu = some c0) (hr : s.deref p = some r0)
    (hfunds : F64.le amount c0.Balance = true) :
    ∃ r, transferMoney parse now1 now2 s (recipientID :: amountStr :: rest) = some r ∧
      r.out = ["Transfer successful."] ∧
      (r.st.deref cu).map Account.Balance =
        some (if cu = p then F64.add (F64.sub c0.Balance amount) amount
              else F64.sub c0.Balance amount) ∧
      (r.st.deref p).map Account.Balance =
        some (if cu = p then F64.add (F64.sub c0.Balance amount) amount
              else F64.add r0.Balance amount) ∧
      (∀ q, q ≠ cu → q ≠ p → r.st.deref q = s.deref q) ∧
      r.st.accounts = s.accounts ∧
      (∀ x y a : ℚ, cu ≠ p → c0.Balance.toRat = some x → r0.Balance.toRat = some y →
        amount.toRat = some a → (F64.sub c0.Balance amount).toRat = some (x - a) →
        (F64.add r0.Balance amount).toRat = some (y + a) →
        ∃ x' y', (r.st.deref cu).bind (fun c => c.Balance.toRat) = some x' ∧
          (r.st.deref p).bind (fun c => c.Balance.toRat) = some y' ∧ x' + y' = x + y) := by
  have hpos' := F64.le_zero_eq_false_of_pos amount hpos
  have hfunds' := F64.lt_eq_false_of_le amount c0.Balance hfunds
  by_cases hne : cu = p
  · subst hne
    refine ⟨_, transferMoney_self parse now1 now2 s recipientID amountStr rest amount cu c0
      hparse hpos' hrec hcu hc hfunds', rfl, ?_, ?_, ?_, rfl, ?_⟩
    · simp [State.deref_store_same s cu _ c0 hc]
    · simp [State.deref_store_same s cu _ c0 hc]
    · intro q hq _
      exact State.deref_store_ne s cu q _ hq
    · intro x y a h
      exact absurd rfl h
  · have hr1 : (s.store cu (debited c0 amount now1 recipientID)).deref p = some r0 := by
      rw [State.deref_store_ne _ _ _ _ (Ne.symm hne)]; exact hr
    have hc1 : ((s.store cu (debited c0 amount now1 recipientID)).store p
        (credited r0 amount now2 c0.ID)).deref cu = some (debited c0 amount now1 recipientID) := by
      rw [State.deref_store_ne _ _ _ _ hne]
      exact State.deref_store_same s cu _ c0 hc
    have hp1 : ((s.store cu (debited c0 amount now1 recipientID)).store p
        (credited r0 amount now2 c0.ID)).deref p = some (credited r0 amount now2 c0.ID) :=
      State.deref_store_same _ p _ r0 hr1
    refine ⟨_, transferMoney_distinct parse now1 now2 s recipientID amountStr rest amount cu p
      c0 r0 hparse hpos' hrec hcu hc hr hfunds' hne, rfl, ?_, ?_, ?_, rfl, ?_⟩
    · rw [hc1]; simp [hne, debited]
    · rw [hp1]; simp [hne, credited]
    · intro q hq hq'
      rw [State.deref_store_ne _ _ _ _ hq', State.deref_store_ne _ _ _ _ hq]
    · intro x y a _ _ _ _ hx hy
      refine ⟨x - a, y + a, ?_, ?_, by ring⟩
      · rw [hc1]; simpa [debited] using hx
      · rw [hp1]; simpa [credited] using hy

/-- C2 (witness): alice has 100, bob 0, alice transfers 30 to bob. -/
theorem C2_transfer_balances_witness :
    ∃ r, transferMoney sampleParse "t1" "t2" (twoAccounts (F64.ofInt 100) (F64.ofInt 0))
        ["bob", "30"] = some r ∧
      r.out = ["Transfer successful."] ∧
      (r.st.deref 0).map Account.Balance = some (F64.ofInt 70) ∧
      (r.st.deref 1).map Account.Balance = some (F64.ofInt 30) := by
  obtain ⟨r, h1, h2, h3, h4, _⟩ := C2_transfer_balances sampleParse "t1" "t2"
    (twoAccounts (F64.ofInt 100) (F64.ofInt 0)) "bob" "30" [] (F64.ofInt 30) 0 1
    ⟨"alice", "pw1", F64.ofInt 100, true, []⟩ ⟨"bob", "pw2", F64.ofInt 0, true, []⟩
    rfl (by decide) rfl rfl rfl rfl (by decide)
  refine ⟨r, h1, h2, ?_, ?_⟩
  · rw [h3]; decide
  · rw [h4]; decide

/-! ## C3: a failed transfer changes nothing -/

/-- C3: when the recipient id is not a key of the accounts table, or when the
sender's balance is less than the parsed amount, `transferMoney` returns with
a message other than "Transfer successful." and the whole state (accounts,
heap of account objects, registrations, top-up requests, id counter, session)
is the state before the call. -/
theorem C3_transfer_failure_no_change (parse : String → Option F64) (now1 now2 : String)
    (s : State) (recipientID amountStr : String) (rest : List String)
    (h : GoMap.get? s.accounts recipientID = none ∨
      ∃ amount c0, parse amountStr = some amount ∧ s.user? = some c0 ∧
        F64.lt c0.Balance amount = true) :
    ∃ msg, transferMoney parse now1 now2 s (recipientID :: amountStr :: rest) =
        some ⟨s, rest, [msg]⟩ ∧
      (msg = "Invalid amount." ∨ msg = "Recipient account not found." ∨
        msg = "Insufficient funds.") := by
  rcases h with h | ⟨amount, c0, hparse, hu, hlt⟩
  · cases hp : parse amountStr with
    | none => exact ⟨"Invalid amount.", by simp [transferMoney, hp], Or.inl rfl⟩
    | some amount =>
      by_cases hle : F64.le amount F64.zero = true
      · exact ⟨"Invalid amount.", by simp [transferMoney, hp, hle], Or.inl rfl⟩
      · exact ⟨"Recipient account not found.", by simp [transferMoney, hp, hle, h],
          Or.inr (Or.inl rfl)⟩
  · by_cases hle : F64.le amount F64.zero = true
    · exact ⟨"Invalid amount.", by simp [transferMoney, hparse, hle], Or.inl rfl⟩
    · cases hrec : GoMap.get? s.accounts recipientID with
      | none =>
        exact ⟨"Recipient account not found.", by simp [transferMoney, hparse, hle, hrec],
          Or.inr (Or.inl rfl)⟩
      | some p =>
        cases hcu : s.currentUser with
        | none => simp [State.user?, hcu] at hu
        | some cu =>
          have hc : s.deref cu = some c0 := by simpa [State.user?, hcu] using hu
          exact ⟨"Insufficient funds.",
            by simp [transferMoney, hparse, hle, hrec, hcu, hc, hlt], Or.inr (Or.inr rfl)⟩

/-- C3 (witness): alice has 50 and tries to send 80 to bob. -/
theorem C3_transfer_failure_no_change_witness :
    ∃ msg, transferMoney sampleParse "t1" "t2" (twoAccounts (F64.ofInt 50) (F64.ofInt 0))
        ["bob", "80"] = some ⟨twoAccounts (F64.ofInt 50) (F64.ofInt 0), [], [msg]⟩ ∧
      (msg = "Invalid amount." ∨ msg = "Recipient account not found." ∨
        msg = "Insufficient funds.") :=
  C3_transfer_failure_no_change sampleParse "t1" "t2"
    (twoAccounts (F64.ofInt 50) (F64.ofInt 0)) "bob" "80" []
    (Or.inr ⟨F64.ofInt 80, ⟨"alice", "pw1", F64.ofInt 50, true, []⟩, rfl, rfl, by decide⟩)

/-! ## C4: non-positive and unparseable amounts -/

/-- C4: if the amount text does not parse, or parses to a value with
`amount <= 0`, then `transferMoney`, `makePayment` and `topUpBalance` each print
"Invalid amount." and return the state they were called in, whoever is logged
in and whatever the recipient. -/
theorem C4_invalid_amount_no_change (parse : String → Option F64) (now1 now2 : String)
    (s : State) (first amountStr : String) (rest : List String)
    (h : parse amountStr = none ∨
      ∃ amount, parse amountStr = some amount ∧ F64.le amount F64.zero = true) :
    transferMoney parse now1 now2 s (first :: amountStr :: rest) =
        some ⟨s, rest, ["Invalid amount."]⟩ ∧
    makePayment parse now1 s (first :: amountStr :: rest) =
        some ⟨s, rest, ["Invalid amount."]⟩ ∧
    topUpBalance parse now1 s (amountStr :: rest) = some ⟨s, rest, ["Invalid amount."]⟩ := by
  rcases h with h | ⟨amount, h, hle⟩
  · simp [transferMoney, makePayment, topUpBalance, h]
  · simp [transferMoney, makePayment, topUpBalance, h, hle]

/-- C4 (witness): the amount `-5` typed by alice. -/
theorem C4_invalid_amount_no_change_witness :
    transferMoney sampleParse "t1" "t2" (twoAccounts (F64.ofInt 50) (F64.ofInt 0))
        ["bob", "-5"] =
      some ⟨twoAccounts (F64.ofInt 50) (F64.ofInt 0), [], ["Invalid amount."]⟩ ∧
    makePayment sampleParse "t1" (twoAccounts (F64.ofInt 50) (F64.ofInt 0)) ["bob", "-5"] =
      some ⟨twoAccounts (F64.ofInt 50) (F64.ofInt 0), [], ["Invalid amount."]⟩ ∧
    topUpBalance sampleParse "t1" (twoAccounts (F64.ofInt 50) (F64.ofInt 0)) ["-5"] =
      some ⟨twoAccounts (F64.ofInt 50) (F64.ofInt 0), [], ["Invalid amount."]⟩ :=
  C4_invalid_amount_no_change sampleParse "t1" "t2"
    (twoAccounts (F64.ofInt 50) (F64.ofInt 0)) "bob" "-5" []
    (Or.inr ⟨F64.ofInt (-5), rfl, by decide⟩)

/-! ## C5: postcondition of a transfer between two accounts -/

/-- C5 (counterexample): alice has 1 and bob 2^53 = 9007199254740992; alice
transfers 1 to bob. The transfer succeeds and bob's balance is still 2^53: it
has not increased by the amount. -/
theorem C5_exact_credit_counterexample :
    (transferMoney sampleParse "t" "t" (twoAccounts (F64.ofInt 1) (F64.ofInt 9007199254740992))
        ["bob", "1"]).map (fun r => (r.out, r.st.balance? "alice", r.st.balance? "bob")) =
      some (["Transfer successful."], some (F64.ofInt 0), some (F64.ofInt 9007199254740992)) ∧
    (F64.ofInt 9007199254740992).toRat = some 9007199254740992 ∧
    (F64.ofInt 1).toRat = some 1 := by
  have h1 : F64.ofInt 1 = F64.fin (2 ^ 52) (-52) := by decide
  have h53 : F64.ofInt 9007199254740992 = F64.fin (2 ^ 52) 1 := by decide
  refine ⟨?_, ?_, ?_⟩
  · rw [transferMoney_distinct sampleParse "t" "t"
      (twoAccounts (F64.ofInt 1) (F64.ofInt 9007199254740992)) "bob" "1" [] (F64.ofInt 1) 0 1
      ⟨"alice", "pw1", F64.ofInt 1, true, []⟩
      ⟨"bob", "pw2", F64.ofInt 9007199254740992, true, []⟩
      rfl (by decide) rfl rfl rfl rfl (by decide) (by decide)]
    decide
  · rw [h53]; norm_num [F64.toRat]
  · rw [h1]; norm_num [F64.toRat]

/-- C5 (amended): a transfer of a positive amount from the logged-in account
object to a different, existing account object, with sender balance at least
the amount, succeeds; the sender's balance becomes the `float64` difference
`balance - amount` and the recipient's the `float64` sum `balance + amount`;
the sender's history gains exactly one entry at the end, of type "Transfer",
with the amount, the sender's id and details "Transferred to R", numbered one
more than the old length; the recipient's history gains exactly one entry at
the end, of type "Transfer", with the amount, the recipient's id and details
"Received from S". -/
theorem C5_transfer_postcondition (parse : String → Option F64) (now1 now2 : String)
    (s : State) (recipientID amountStr : String) (rest : List String) (amount : F64)
    (cu p : ℕ) (c0 r0 : Account)
    (hparse : parse amountStr = some amount) (hpos : F64.lt F64.zero amount = true)
    (hrec : GoMap.get? s.accounts recipientID = some p) (hcu : s.currentUser = some cu)
    (hc : s.deref cu = some c0) (hr : s.deref p = some r0)
    (hfunds : F64.le amount c0.Balance = true) (hne : cu ≠ p) :
    ∃ r, transferMoney parse now1 now2 s (recipientID :: amountStr :: rest) = some r ∧
      r.out = ["Transfer successful."] ∧
      r.st.deref cu = some
        { c0 with
          Balance := F64.sub c0.Balance amount
          Transactions := c0.Transactions ++
            [⟨c0.Transactions.length + 1, c0.ID, "Transfer", amount, now1,
              "Transferred to " ++ recipientID⟩] } ∧
      r.st.deref p = some
        { r0 with
          Balance := F64.add r0.Balance amount
          Transactions := r0.Transactions ++
            [⟨r0.Transactions.length + 1, r0.ID, "Transfer", amount, now2,
              "Received from " ++ c0.ID⟩] } := by
  have hpos' := F64.le_zero_eq_false_of_pos amount hpos
  have hfunds' := F64.lt_eq_false_of_le amount c0.Balance hfunds
  have hr1 : (s.store cu (debited c0 amount now1 recipientID)).deref p = some r0 := by
    rw [State.deref_store_ne _ _ _ _ (Ne.symm hne)]; exact hr
  refine ⟨_, transferMoney_distinct parse now1 now2 s recipientID amountStr rest amount cu p
    c0 r0 hparse hpos' hrec hcu hc hr hfunds' hne, rfl, ?_, ?_⟩
  · rw [State.deref_store_ne _ _ _ _ hne, State.deref_store_same s cu _ c0 hc]
    rfl
  · rw [State.deref_store_same _ p _ r0 hr1]
    rfl

/-- C5 (witness): alice has 100, bob 0, alice transfers 30 to bob: the
balances become 70 and 30 and each history gets its one entry. -/
theorem C5_transfer_postcondition_witness :
    ∃ r, transferMoney sampleParse "t1" "t2" (twoAccounts (F64.ofInt 100) (F64.ofInt 0))
        ["bob", "30"] = some r ∧
      r.out = ["Transfer successful."] ∧
      r.st.deref 0 = some ⟨"alice", "pw1", F64.ofInt 70, true,
        [⟨1, "alice", "Transfer", F64.ofInt 30, "t1", "Transferred to bob"⟩]⟩ ∧
      r.st.deref 1 = some ⟨"bob", "pw2", F64.ofInt 30, true,
        [⟨1, "bob", "Transfer", F64.ofInt 30, "t2", "Received from alice"⟩]⟩ := by
  obtain ⟨r, h1, h2, h3, h4⟩ := C5_transfer_postcondition sampleParse "t1" "t2"
    (twoAccounts (F64.ofInt 100) (F64.ofInt 0)) "bob" "30" [] (F64.ofInt 30) 0 1
    ⟨"alice", "pw1", F64.ofInt 100, true, []⟩ ⟨"bob", "pw2", F64.ofInt 0, true, []⟩
    rfl (by decide) rfl rfl rfl rfl (by decide) (by decide)
  refine ⟨r, h1, h2, ?_, ?_⟩
  · rw [h3]; decide
  · rw [h4]; decide

/-! ## C6: a payment above the balance is rejected -/

/-- C6: for a logged-in account object and a parsed amount with `amount > 0`
and `balance < amount`, `makePayment` prints "Insufficient funds." and returns
the state it was called in: no balance changes and no history grows. -/
theorem C6_payment_rejected (parse : String → Option F64) (now : String) (s : State)
    (paymentType amountStr : String) (rest : List String) (amount : F64) (c0 : Account)
    (hparse : parse amountStr = some amount) (hpos : F64.lt F64.zero amount = true)
    (hu : s.user? = some c0) (hlt : F64.lt c0.Balance amount = true) :
    makePayment parse now s (paymentType :: amountStr :: rest) =
      some ⟨s, rest, ["Insufficient funds."]⟩ := by
  have hpos' := F64.le_zero_eq_false_of_pos amount hpos
  cases hcu : s.currentUser with
  | none => simp [State.user?, hcu] at hu
  | some cu =>
    have hc : s.deref cu = some c0 := by simpa [State.user?, hcu] using hu
    simp [makePayment, hparse, hpos', hcu, hc, hlt]

/-- C6 (witness): alice has 50 and pays 80 for "electricity". -/
theorem C6_payment_rejected_witness :
    makePayment sampleParse "t1" (twoAccounts (F64.ofInt 50) (F64.ofInt 0))
        ["electricity", "80"] =
      some ⟨twoAccounts (F64.ofInt 50) (F64.ofInt 0), [], ["Insufficient funds."]⟩ :=
  C6_payment_rejected sampleParse "t1" (twoAccounts (F64.ofInt 50) (F64.ofInt 0))
    "electricity" "80" [] (F64.ofInt 80) ⟨"alice", "pw1", F64.ofInt 50, true, []⟩
    rfl (by decide) rfl (by decide)

/-! ## C7: postcondition of a payment -/

/-- C7 (counterexample): alice has 10^17 and pays 1 for "food". The payment
succeeds and her balance is still 10^17: it has not decreased by the amount
(`float64` has no value between 10^17 - 16 and 10^17). -/
theorem C7_exact_debit_counterexample :
    F64.lt F64.zero (F64.ofInt 1) = true ∧
    F64.le (F64.ofInt 1) (F64.ofInt 100000000000000000) = true ∧
    (makePayment sampleParse "t" (twoAccounts (F64.ofInt 100000000000000000) (F64.ofInt 0))
        ["food", "1"]).map (fun r => (r.out, r.st.balance? "alice")) =
      some (["Payment successful."], some (F64.ofInt 100000000000000000)) ∧
    (F64.ofInt 100000000000000000).toRat = some 100000000000000000 := by
  have h17 : F64.ofInt 100000000000000000 = F64.fin 6250000000000000 4 := by decide
  refine ⟨by decide, by decide, ?_, ?_⟩
  · rw [makePayment_ok sampleParse "t"
      (twoAccounts (F64.ofInt 100000000000000000) (F64.ofInt 0)) "food" "1" [] (F64.ofInt 1) 0
      ⟨"alice", "pw1", F64.ofInt 100000000000000000, true, []⟩
      rfl (by decide) rfl rfl (by decide)]
    decide
  · rw [h17]; norm_num [F64.toRat]

/-- C7 (amended): for the logged-in account object, a category text and a
parsed amount with `0 < amount <= balance`, `makePayment` succeeds, sets that
object's balance to the `float64` difference `balance - amount`, appends
exactly one transaction of type "Payment" with that amount, the account's id
and the category as details, numbered one more than the old length, and
changes nothing else: every other account object, the accounts table, the
registrations, the top-up requests, the counter and the session are as before. -/
theorem C7_payment_postcondition (parse : String → Option F64) (now : String) (s : State)
    (paymentType amountStr : String) (rest : List String) (amount : F64) (cu : ℕ)
    (c0 : Account)
    (hparse : parse amountStr = some amount) (hpos : F64.lt F64.zero amount = true)
    (hcu : s.currentUser = some cu) (hc : s.deref cu = some c0)
    (hfunds : F64.le amount c0.Balance = true) :
    ∃ r, makePayment parse now s (paymentType :: amountStr :: rest) = some r ∧
      r.out = ["Payment successful."] ∧
      r.st.deref cu = some
        { c0 with
          Balance := F64.sub c0.Balance amount
          Transactions := c0.Transactions ++
            [⟨c0.Transactions.length + 1, c0.ID, "Payment", amount, now, paymentType⟩] } ∧
      (∀ q, q ≠ cu → r.st.deref q = s.deref q) ∧
      r.st.heap.length = s.heap.length ∧
      r.st.accounts = s.accounts ∧ r.st.registrations = s.registrations ∧
      r.st.topUpRequests = s.topUpRequests ∧ r.st.nextTopUpID = s.nextTopUpID ∧
      r.st.currentUser = s.currentUser := by
  have hpos' := F64.le_zero_eq_false_of_pos amount hpos
  have hfunds' := F64.lt_eq_false_of_le amount c0.Balance hfunds
  refine ⟨_, makePayment_ok parse now s paymentType amountStr rest amount cu c0
    hparse hpos' hcu hc hfunds', rfl, ?_, ?_, ?_, rfl, rfl, rfl, rfl, rfl⟩
  · exact State.deref_store_same s cu _ c0 hc
  · intro q hq
    exact State.deref_store_ne s cu q _ hq
  · simp [State.store]

/-- C7 (witness): alice has 50 and pays the whole 50 for "food". -/
theorem C7_payment_postcondition_witness :
    ∃ r, makePayment sampleParse "t1" (twoAccounts (F64.ofInt 50) (F64.ofInt 0))
        ["food", "50"] = some r ∧
      r.out = ["Payment successful."] ∧
      r.st.deref 0 = some ⟨"alice", "pw1", F64.ofInt 0, true,
        [⟨1, "alice", "Payment", F64.ofInt 50, "t1", "food"⟩]⟩ ∧
      r.st.deref 1 = some ⟨"bob", "pw2", F64.ofInt 0, true, []⟩ := by
  obtain ⟨r, h1, h2, h3, h4, _⟩ := C7_payment_postcondition sampleParse "t1"
    (twoAccounts (F64.ofInt 50) (F64.ofInt 0)) "food" "50" [] (F64.ofInt 50) 0
    ⟨"alice", "pw1", F64.ofInt 50, true, []⟩ rfl (by decide) rfl rfl (by decide)
  refine ⟨r, h1, h2, ?_, ?_⟩
  · rw [h3]; decide
  · rw [h4 1 (by decide)]; rfl

/-! ## C8: account login -/

/-- C8: `loginusr` returns `true` exactly when the accounts table has an entry
for the id whose account object has that very password and `Approved = true`
(so an account with `Approved = false` cannot log in with any password); on
success the state is the old one with `currentUser` pointing to that entry's
object; when it returns `false` the state, session included, is unchanged; the
only case without a result is the nil-pointer panic on a nil table entry. -/
theorem C8_loginusr (s : State) (id password : String) (rest : List String) :
    ((∃ r, loginusr s (id :: password :: rest) = some (r, true)) ↔
      ∃ account, s.account? id = some account ∧ account.Password = password ∧
        account.Approved = true) ∧
    (∀ r, loginusr s (id :: password :: rest) = some (r, true) →
      r.st = { s with currentUser := GoMap.get? s.accounts id } ∧
        r.st.user? = s.account? id ∧ r.sc = rest) ∧
    (∀ r, loginusr s (id :: password :: rest) = some (r, false) →
      r.st = s ∧ r.sc = rest ∧ r.out = ["Invalid credentials or account not approved."]) ∧
    (loginusr s (id :: password :: rest) = none ↔
      ∃ p, GoMap.get? s.accounts id = some p ∧ s.deref p = none) := by
  cases hget : GoMap.get? s.accounts id with
  | none => simp [loginusr, hget, State.account?]
  | some p =>
    cases hd : s.deref p with
    | none => simp [loginusr, hget, hd, State.account?]
    | some account =>
      by_cases hpw : account.Password = password
      · cases happ : account.Approved with
        | false => simp [loginusr, hget, hd, State.account?, hpw, happ]
        | true =>
          simp only [loginusr, hget, hd, State.account?, hpw, happ]
          refine ⟨?_, ?_, ?_, ?_⟩
          · simp
            exact ⟨account, hd, hpw, happ⟩
          · intro r hr
            simp at hr
            subst hr
            simp [State.user?, State.deref] at hd ⊢
          · intro r hr
            simp at hr
          · simp [hd]
      · simp [loginusr, hget, hd, State.account?, hpw]

/-- C8 (witness): alice logs in with her password, and not with another one. -/
theorem C8_loginusr_witness :
    (∃ r, loginusr (twoAccounts (F64.ofInt 50) (F64.ofInt 0)) ["alice", "pw1"] =
      some (r, true)) ∧
    ¬ (∃ r, loginusr (twoAccounts (F64.ofInt 50) (F64.ofInt 0)) ["alice", "pw2"] =
      some (r, true)) := by
  constructor
  · exact (C8_loginusr (twoAccounts (F64.ofInt 50) (F64.ofInt 0)) "alice" "pw1" []).1.mpr
      ⟨⟨"alice", "pw1", F64.ofInt 50, true, []⟩, rfl, rfl, rfl⟩
  · intro h
    obtain ⟨account, h1, h2, _⟩ :=
      (C8_loginusr (twoAccounts (F64.ofInt 50) (F64.ofInt 0)) "alice" "pw2" []).1.mp h
    have : account = ⟨"alice", "pw1", F64.ofInt 50, true, []⟩ := by
      have h3 : (twoAccounts (F64.ofInt 50) (F64.ofInt 0)).account? "alice" =
          some ⟨"alice", "pw1", F64.ofInt 50, true, []⟩ := rfl
      rw [h3] at h1
      exact (Option.some.inj h1).symm
    subst this
    exact absurd h2 (by decide)

/-! ## C9: approving a top-up request (helpers and counterexample) -/

theorem handleTopUpLoop_approved (todo : List TopUpRequest) (i : ℕ) (s : State)
    (sc : List String) (h : ∀ r ∈ todo, r.Approved = true) :
    handleTopUpLoop todo i s sc = some ⟨s, sc, []⟩ := by
  induction todo generalizing i with
  | nil => rfl
  | cons r todo ih =>
    have hr : r.Approved = true := h r (List.mem_cons_self _ _)
    simp only [handleTopUpLoop, hr, if_true]
    exact ih (i + 1) (fun r' hr' => h r' (List.mem_cons_of_mem _ hr'))

theorem handleTopUpLoop_skip (pre todo : List TopUpRequest) (i : ℕ) (s : State)
    (sc : List String) (h : ∀ r ∈ pre, r.Approved = true) :
    handleTopUpLoop (pre ++ todo) i s sc = handleTopUpLoop todo (i + pre.length) s sc := by
  induction pre generalizing i with
  | nil => simp
  | cons r pre ih =>
    have hr : r.Approved = true := h r (List.mem_cons_self _ _)
    have e : handleTopUpLoop (r :: pre ++ todo) i s sc =
        handleTopUpLoop (pre ++ todo) (i + 1) s sc := by
      simp only [List.cons_append, handleTopUpLoop, hr, if_true]
      rfl
    rw [e, ih (i + 1) (fun r' hr' => h r' (List.mem_cons_of_mem _ hr')), List.length_cons]
    congr 1
    omega

theorem modify_append_length {α : Type} (f : α → α) (pre post : List α) (a : α) :
    List.modify f pre.length (pre ++ a :: post) = pre ++ f a :: post := by
  induction pre with
  | nil => rfl
  | cons b pre ih =>
    simp only [List.modify] at ih
    simp [List.modify, List.modifyTailIdx, ih]

/-- The ledger `twoAccounts a b` with one pending top-up request of alice for
`amount`. -/
def withPendingTopUp (a b amount : F64) : State :=
  { twoAccounts a b with
    topUpRequests := [⟨1, "alice", amount, "t0", false⟩]
    nextTopUpID := 2 }

/-- C9 (counterexample): alice has 2^53 = 9007199254740992 and a pending
request for 1; the admin approves it and alice's balance is still 2^53: it has
not increased by the amount of the request. -/
theorem C9_exact_credit_counterexample :
    (handleTopUpRequests
        (withPendingTopUp (F64.ofInt 9007199254740992) (F64.ofInt 0) (F64.ofInt 1)) ["y"]).map
        (fun r => (r.out, r.st.balance? "alice", r.st.topUpRequests.map TopUpRequest.Approved)) =
      some (["Top up approved."], some (F64.ofInt 9007199254740992), [true]) ∧
    (F64.ofInt 9007199254740992).toRat = some 9007199254740992 ∧
    (F64.ofInt 1).toRat = some 1 := by
  have h1 : F64.ofInt 1 = F64.fin (2 ^ 52) (-52) := by decide
  have h53 : F64.ofInt 9007199254740992 = F64.fin (2 ^ 52) 1 := by decide
  refine ⟨?_, ?_, ?_⟩
  · have e : handleTopUpRequests
        (withPendingTopUp (F64.ofInt 9007199254740992) (F64.ofInt 0) (F64.ofInt 1)) ["y"] =
        some ⟨{ twoAccounts (F64.add (F64.ofInt 9007199254740992) (F64.ofInt 1)) (F64.ofInt 0) with
                topUpRequests := [⟨1, "alice", F64.ofInt 1, "t0", true⟩]
                nextTopUpID := 2 }, [], ["Top up approved."]⟩ := rfl
    rw [e]
    decide
  · rw [h53]; norm_num [F64.toRat]
  · rw [h1]; norm_num [F64.toRat]

/-! ## C10: top-up request ids -/

/-- The calls the menus can make, with the input lines, the parser and the
clock readings each call consumes. -/
inductive Op where
  | register (sc : List String)
  | adminLogin (sc : List String)
  | userLogin (sc : List String)
  | leave
  | registrations (order : List String) (sc : List String)
  | transfer (parse : String → Option F64) (now1 now2 : String) (sc : List String)
  | payment (parse : String → Option F64) (now : String) (sc : List String)
  | topUp (parse : String → Option F64) (now : String) (sc : List String)
  | topUps (sc : List String)

/-- State after one call; `none` when the call panics. -/
def Op.exec : Op → State → Option State
  | .register sc, s => some (registerAccount s sc).st
  | .adminLogin sc, s => some (loginadm s sc).1.st
  | .userLogin sc, s => (loginusr s sc).map (fun r => r.1.st)
  | .leave, s => some (logout s)
  | .registrations order sc, s => some (handleRegistrations order s sc).st
  | .transfer parse now1 now2 sc, s => (transferMoney parse now1 now2 s sc).map Run.st
  | .payment parse now sc, s => (makePayment parse now s sc).map Run.st
  | .topUp parse now sc, s => (topUpBalance parse now s sc).map Run.st
  | .topUps sc, s => (handleTopUpRequests s sc).map Run.st

/-- State after a sequence of calls. -/
def runOps : List Op → State → Option State
  | [], s => some s
  | op :: ops, s => (op.exec s).bind (runOps ops)

/-- The ids of the top-up requests, in list order. -/
def State.topUpIds (s : State) : List ℕ := s.topUpRequests.map TopUpRequest.ID

theorem registerAccount_topUps (s : State) (sc : List String) :
    (registerAccount s sc).st.topUpRequests = s.topUpRequests ∧
      (registerAccount s sc).st.nextTopUpID = s.nextTopUpID := by
  unfold registerAccount
  split
  · exact ⟨rfl, rfl⟩
  · split
    · exact ⟨rfl, rfl⟩
    · split <;> exact ⟨rfl, rfl⟩

theorem loginadm_topUps (s : State) (sc : List String) :
    (loginadm s sc).1.st.topUpRequests = s.topUpRequests ∧
      (loginadm s sc).1.st.nextTopUpID = s.nextTopUpID := by
  unfold loginadm
  split
  · exact ⟨rfl, rfl⟩
  · split
    · exact ⟨rfl, rfl⟩
    · split <;> exact ⟨rfl, rfl⟩

theorem loginusr_topUps (s : State) (sc : List String) (r : Run × Bool)
    (h : loginusr s sc = some r) :
    r.1.st.topUpRequests = s.topUpRequests ∧ r.1.st.nextTopUpID = s.nextTopUpID := by
  unfold loginusr at h
  repeat' split at h
  all_goals (cases h <;> exact ⟨rfl, rfl⟩)

theorem handleRegistrationsLoop_topUps (order : List String) (s : State) (sc : List String) :
    (handleRegistrationsLoop order s sc).st.topUpRequests = s.topUpRequests ∧
      (handleRegistrationsLoop order s sc).st.nextTopUpID = s.nextTopUpID := by
  induction order generalizing s sc with
  | nil => exact ⟨rfl, rfl⟩
  | cons id order ih =>
    unfold handleRegistrationsLoop
    split
    · exact ih s sc
    · split
      · exact ⟨rfl, rfl⟩
      · rename_i ans sc1
        by_cases hy : ans = "y"
        · simp only [hy, if_true]
          exact ih _ _
        · simp only [hy, if_false]
          exact ih _ _

theorem transferMoney_topUps (parse : String → Option F64) (now1 now2 : String) (s : State)
    (sc : List String) (r : Run) (h : transferMoney parse now1 now2 s sc = some r) :
    r.st.topUpRequests = s.topUpRequests ∧ r.st.nextTopUpID = s.nextTopUpID := by
  unfold transferMoney at h
  repeat' (first | split at h | (dsimp only at h; split at h))
  all_goals (cases h <;> exact ⟨rfl, rfl⟩)

theorem makePayment_topUps (parse : String → Option F64) (now : String) (s : State)
    (sc : List String) (r : Run) (h : makePayment parse now s sc = some r) :
    r.st.topUpRequests = s.topUpRequests ∧ r.st.nextTopUpID = s.nextTopUpID := by
  unfold makePayment at h
  repeat' split at h
  all_goals (cases h <;> exact ⟨rfl, rfl⟩)

theorem topUpBalance_topUps (parse : String → Option F64) (now : String) (s : State)
    (sc : List String) (r : Run) (h : topUpBalance parse now s sc = some r) :
    (r.st.topUpRequests = s.topUpRequests ∧ r.st.nextTopUpID = s.nextTopUpID) ∨
    ∃ req : TopUpRequest, req.ID = s.nextTopUpID ∧ req.Approved = false ∧
      r.st.topUpRequests = s.topUpRequests ++ [req] ∧
      r.st.nextTopUpID = s.nextTopUpID + 1 := by
  unfold topUpBalance at h
  repeat' split at h
  all_goals first
    | (cases h; exact Or.inl ⟨rfl, rfl⟩)
    | (cases h; exact Or.inr ⟨_, rfl, rfl, rfl, rfl⟩)
    | cases h

theorem map_ID_modify (l : List TopUpRequest) (i : ℕ) :
    (List.modify (fun r => { r with Approved := true }) i l).map TopUpRequest.ID =
      l.map TopUpRequest.ID := by
  induction l generalizing i with
  | nil => cases i <;> rfl
  | cons a l ih =>
    cases i with
    | zero => rfl
    | succ i =>
      have := ih i
      simp only [List.modify] at this
      simp [List.modify, List.modifyTailIdx, this]

theorem handleTopUpLoop_topUps (todo : List TopUpRequest) (i : ℕ) (s : State)
    (sc : List String) (r : Run) (h : handleTopUpLoop todo i s sc = some r) :
    r.st.topUpIds = s.topUpIds ∧ r.st.nextTopUpID = s.nextTopUpID := by
  induction todo generalizing i s sc r with
  | nil =>
    simp only [handleTopUpLoop] at h
    cases h
    exact ⟨rfl, rfl⟩
  | cons request todo ih =>
    unfold handleTopUpLoop at h
    split at h
    · exact ih _ _ _ _ h
    · split at h
      · cases h
        exact ⟨rfl, rfl⟩
      · split at h
        · split at h
          · cases h
          · split at h
            · cases h
            · dsimp only at h
              cases hl : handleTopUpLoop todo (i + 1) _ _ with
              | none => rw [hl] at h; cases h
              | some r' =>
                rw [hl] at h
                cases h
                have := ih _ _ _ _ hl
                refine ⟨?_, this.2⟩
                rw [this.1]
                simp [State.topUpIds, State.store, map_ID_modify]
        · cases hl : handleTopUpLoop todo (i + 1) s _ with
          | none => rw [hl] at h; cases h
          | some r' =>
            rw [hl] at h
            cases h
            exact ih _ _ _ r' hl

/-- The invariant of the top-up request list: ids strictly increasing in list
order and all below the counter. -/
def TopUpIdsOk (s : State) : Prop :=
  s.topUpIds.Pairwise (· < ·) ∧ ∀ i ∈ s.topUpIds, i < s.nextTopUpID

theorem TopUpIdsOk_of_same (s s' : State) (h : TopUpIdsOk s)
    (h1 : s'.topUpIds = s.topUpIds) (h2 : s'.nextTopUpID = s.nextTopUpID) : TopUpIdsOk s' := by
  unfold TopUpIdsOk
  rw [h1, h2]
  exact h

theorem TopUpIdsOk_exec (op : Op) (s s' : State) (h : TopUpIdsOk s)
    (hexec : op.exec s = some s') : TopUpIdsOk s' := by
  cases op with
  | register sc =>
    cases hexec
    have := registerAccount_topUps s sc
    exact TopUpIdsOk_of_same s _ h (by simp [State.topUpIds, this.1]) this.2
  | adminLogin sc =>
    cases hexec
    have := loginadm_topUps s sc
    exact TopUpIdsOk_of_same s _ h (by simp [State.topUpIds, this.1]) this.2
  | userLogin sc =>
    simp only [Op.exec, Option.map_eq_some'] at hexec
    obtain ⟨r, hr, rfl⟩ := hexec
    have := loginusr_topUps s sc r hr
    exact TopUpIdsOk_of_same s _ h (by simp [State.topUpIds, this.1]) this.2
  | leave =>
    cases hexec
    exact h
  | registrations order sc =>
    cases hexec
    have := handleRegistrationsLoop_topUps order s sc
    exact TopUpIdsOk_of_same s _ h (by simp [State.topUpIds, handleRegistrations, this.1])
      this.2
  | transfer parse now1 now2 sc =>
    simp only [Op.exec, Option.map_eq_some'] at hexec
    obtain ⟨r, hr, rfl⟩ := hexec
    have := transferMoney_topUps parse now1 now2 s sc r hr
    exact TopUpIdsOk_of_same s _ h (by simp [State.topUpIds, this.1]) this.2
  | payment parse now sc =>
    simp only [Op.exec, Option.map_eq_some'] at hexec
    obtain ⟨r, hr, rfl⟩ := hexec
    have := makePayment_topUps parse now s sc r hr
    exact TopUpIdsOk_of_same s _ h (by simp [State.topUpIds, this.1]) this.2
  | topUp parse now sc =>
    simp only [Op.exec, Option.map_eq_some'] at hexec
    obtain ⟨r, hr, rfl⟩ := hexec
    rcases topUpBalance_topUps parse now s sc r hr with ⟨h1, h2⟩ | ⟨req, hid, _, h1, h2⟩
    · exact TopUpIdsOk_of_same s _ h (by simp [State.topUpIds, h1]) h2
    · unfold TopUpIdsOk State.topUpIds at *
      rw [h1, h2, List.map_append, List.pairwise_append]
      refine ⟨⟨h.1, by simp, ?_⟩, ?_⟩
      · intro a ha b hb
        simp only [List.map_cons, List.map_nil, List.mem_singleton] at hb
        rw [hb, hid]
        exact h.2 a ha
      · intro i hi
        simp only [List.mem_append, List.map_cons, List.map_nil, List.mem_singleton] at hi
        rcases hi with hi | hi
        · exact Nat.lt_succ_of_lt (h.2 i hi)
        · rw [hi, hid]; exact Nat.lt_succ_self _
  | topUps sc =>
    simp only [Op.exec, Option.map_eq_some'] at hexec
    obtain ⟨r, hr, rfl⟩ := hexec
    have := handleTopUpLoop_topUps _ _ _ _ r hr
    exact TopUpIdsOk_of_same s _ h this.1 this.2

theorem TopUpIdsOk_runOps (ops : List Op) (s s' : State) (h : TopUpIdsOk s)
    (hrun : runOps ops s = some s') : TopUpIdsOk s' := by
  induction ops generalizing s with
  | nil =>
    cases hrun
    exact h
  | cons op ops ih =>
    simp only [runOps, Option.bind_eq_some] at hrun
    obtain ⟨s1, h1, h2⟩ := hrun
    exact ih s1 (TopUpIdsOk_exec op s s1 h h1) h2

/-- C10: in every state reached by any sequence of calls from a state with an
empty request list (whatever the counter then is, 1 in the program), the ids of the top-up requests are
strictly increasing in list order, pairwise distinct and all less than
`nextTopUpID`; so a further `topUpBalance` either adds nothing or appends one
request whose id is greater than every id already in the list. -/
theorem C10_topUp_ids_increasing (ops : List Op) (s0 s : State)
    (hreqs : s0.topUpRequests = []) (hrun : runOps ops s0 = some s) :
    s.topUpIds.Pairwise (· < ·) ∧ s.topUpIds.Nodup ∧ (∀ i ∈ s.topUpIds, i < s.nextTopUpID) ∧
    ∀ (parse : String → Option F64) (now : String) (sc : List String) (r : Run),
      topUpBalance parse now s sc = some r →
        r.st.topUpRequests = s.topUpRequests ∨
        ∃ req, r.st.topUpRequests = s.topUpRequests ++ [req] ∧ ∀ i ∈ s.topUpIds, i < req.ID := by
  have h0 : TopUpIdsOk s0 := by
    unfold TopUpIdsOk State.topUpIds
    rw [hreqs]
    exact ⟨List.Pairwise.nil, by simp⟩
  have h := TopUpIdsOk_runOps ops s0 s h0 hrun
  refine ⟨h.1, ?_, h.2, ?_⟩
  · exact h.1.imp (fun hab => Nat.ne_of_lt hab)
  · intro parse now sc r hr
    rcases topUpBalance_topUps parse now s sc r hr with ⟨h1, _⟩ | ⟨req, hid, _, h1, _⟩
    · exact Or.inl h1
    · exact Or.inr ⟨req, h1, fun i hi => hid ▸ h.2 i hi⟩

/-- C10 (witness): alice submits two top-ups, of 40 and of 30; the requests
get the ids 1 and 2 and the counter is 3. -/
theorem C10_topUp_ids_increasing_witness :
    runOps [Op.topUp sampleParse "t1" ["40"], Op.topUp sampleParse "t2" ["30"]]
        (twoAccounts (F64.ofInt 0) (F64.ofInt 0)) =
      some { twoAccounts (F64.ofInt 0) (F64.ofInt 0) with
             topUpRequests := [⟨1, "alice", F64.ofInt 40, "t1", false⟩,
               ⟨2, "alice", F64.ofInt 30, "t2", false⟩]
             nextTopUpID := 3 } ∧
    ([1, 2] : List ℕ).Pairwise (· < ·) ∧ ([1, 2] : List ℕ).Nodup := by
  have hrun : runOps [Op.topUp sampleParse "t1" ["40"], Op.topUp sampleParse "t2" ["30"]]
      (twoAccounts (F64.ofInt 0) (F64.ofInt 0)) =
      some { twoAccounts (F64.ofInt 0) (F64.ofInt 0) with
             topUpRequests := [⟨1, "alice", F64.ofInt 40, "t1", false⟩,
               ⟨2, "alice", F64.ofInt 30, "t2", false⟩]
             nextTopUpID := 3 } := by
    decide
  have h := C10_topUp_ids_increasing _ (twoAccounts (F64.ofInt 0) (F64.ofInt 0)) _ rfl hrun
  exact ⟨hrun, h.1, h.2.1⟩

/-! ## Facts about maps -/

namespace GoMap

theorem get?_set_same {V : Type} (m : GoMap V) (k : String) (v : V) :
    get? (set m k v) k = some v := by
  induction m with
  | nil => simp [set, get?]
  | cons kv m ih =>
    obtain ⟨k', v'⟩ := kv
    by_cases h : k' = k
    · simp [set, get?, h]
    · simp [set, get?, h, ih]

theorem get?_set_ne {V : Type} (m : GoMap V) (k k' : String) (v : V) (h : k' ≠ k) :
    get? (set m k v) k' = get? m k' := by
  induction m with
  | nil => simp [set, get?, h.symm]
  | cons kv m ih =>
    obtain ⟨k₁, v₁⟩ := kv
    by_cases h1 : k₁ = k
    · subst h1
      simp [set, get?, h.symm]
    · simp [set, get?, h1, ih]

theorem delete_eq_filter {V : Type} (m : GoMap V) (k : String) :
    delete m k = m.filter (fun kv => decide (kv.1 ≠ k)) := by
  induction m with
  | nil => rfl
  | cons kv m ih =>
    obtain ⟨k', v'⟩ := kv
    by_cases h : k' = k
    · simp [delete, h, ih]
    · simp [delete, h, ih]

theorem get?_delete_same {V : Type} (m : GoMap V) (k : String) :
    get? (delete m k) k = none := by
  induction m with
  | nil => rfl
  | cons kv m ih =>
    obtain ⟨k', v'⟩ := kv
    by_cases h : k' = k
    · simp [delete, h, ih]
    · simp [delete, get?, h, ih]

theorem not_mem_of_get?_none {V : Type} (m : GoMap V) (k : String) (h : get? m k = none) :
    ∀ kv ∈ m, kv.1 ≠ k := by
  induction m with
  | nil => simp
  | cons kv m ih =>
    obtain ⟨k', v'⟩ := kv
    by_cases h1 : k' = k
    · simp [get?, h1] at h
    · simp only [get?, h1, if_false] at h
      intro kv hkv
      rcases List.mem_cons.mp hkv with rfl | hkv
      · exact h1
      · exact ih h kv hkv

end GoMap

/-! ## One decision of the registration pass -/

/-- State right after the admin has answered `ans` at the prompt for the
pending registration `reg` of `id`: the body of the loop of
`handleRegistrations`. -/
def registrationDecided (s : State) (id : String) (reg : Registration) (ans : String) : State :=
  let s1 : State :=
    if ans = "y" then
      { s with heap := s.heap ++ [⟨id, reg.Password, F64.zero, true, []⟩],
               accounts := GoMap.set s.accounts id s.heap.length }
    else s
  { s1 with registrations := GoMap.delete s1.registrations id }

theorem handleRegistrationsLoop_step (order : List String) (s : State) (id : String)
    (reg : Registration) (ans : String) (sc : List String)
    (hreg : GoMap.get? s.registrations id = some reg) :
    handleRegistrationsLoop (id :: order) s (ans :: sc) =
      ⟨(handleRegistrationsLoop order (registrationDecided s id reg ans) sc).st,
        (handleRegistrationsLoop order (registrationDecided s id reg ans) sc).sc,
        (if ans = "y" then "Account approved." else "Account rejected.") ::
          (handleRegistrationsLoop order (registrationDecided s id reg ans) sc).out⟩ := by
  simp only [handleRegistrationsLoop, hreg, registrationDecided]

theorem handleRegistrationsLoop_registrations (order : List String) (s : State)
    (sc : List String) (hlen : order.length ≤ sc.length) :
    (handleRegistrationsLoop order s sc).st.registrations =
      s.registrations.filter (fun kv => decide (kv.1 ∉ order)) := by
  induction order generalizing s sc with
  | nil => simp [handleRegistrationsLoop]
  | cons id order ih =>
    cases hreg : GoMap.get? s.registrations id with
    | none =>
      have hno := GoMap.not_mem_of_get?_none s.registrations id hreg
      have e : handleRegistrationsLoop (id :: order) s sc = handleRegistrationsLoop order s sc := by
        simp only [handleRegistrationsLoop, hreg]
      rw [e, ih s sc (by simp only [List.length_cons] at hlen; omega)]
      apply List.filter_congr
      intro kv hkv
      have := hno kv hkv
      simp [this]
    | some reg =>
      cases sc with
      | nil => simp at hlen
      | cons ans sc =>
        rw [handleRegistrationsLoop_step order s id reg ans sc hreg]
        simp only
        rw [ih _ sc (by simp only [List.length_cons] at hlen; omega)]
        have e : (registrationDecided s id reg ans).registrations =
            s.registrations.filter (fun kv => decide (kv.1 ≠ id)) := by
          unfold registrationDecided
          by_cases hy : ans = "y"
          · simp [hy, GoMap.delete_eq_filter]
          · simp [hy, GoMap.delete_eq_filter]
        rw [e, List.filter_filter]
        apply List.filter_congr
        intro kv _
        simp [Bool.and_comm]

theorem loginusr_success (s : State) (id password : String) (rest : List String)
    (account : Account) (hacc : s.account? id = some account)
    (hpw : account.Password = password) (happ : account.Approved = true) :
    loginusr s (id :: password :: rest) =
      some (⟨{ s with currentUser := GoMap.get? s.accounts id }, rest, []⟩, true) := by
  cases hget : GoMap.get? s.accounts id with
  | none => simp [State.account?, hget] at hacc
  | some p =>
    have hd : s.deref p = some account := by simpa [State.account?, hget] using hacc
    simp [loginusr, hget, hd, hpw, happ]

/-! ## C12 and C18: registering an id that already has an account -/

/-- The ledger of a first start: nothing stored, nobody logged in. -/
def emptyLedger : State :=
  { heap := [], accounts := [], registrations := [], topUpRequests := [],
    currentUser := none, nextTopUpID := 1 }

/-- A ledger in which alice, with balance 70, has one payment in her history. -/
def alicePaid : State :=
  { heap := [⟨"alice", "pw1", F64.ofInt 70, true,
      [⟨1, "alice", "Payment", F64.ofInt 30, "t0", "food"⟩]⟩],
    accounts := [("alice", 0)], registrations := [], topUpRequests := [],
    currentUser := none, nextTopUpID := 1 }

/-- C12 (evaluation at the failing input): alice has an account with one
transaction. A registration for the id alice is accepted, because the id is
not in the registrations table, and when the admin approves it the table entry
of alice is replaced by a fresh account: her history is empty, of which the old
history is not a prefix, and her balance is 0. -/
theorem C12_history_lost_on_reapproval :
    alicePaid.history? "alice" = some [⟨1, "alice", "Payment", F64.ofInt 30, "t0", "food"⟩] ∧
    (registerAccount alicePaid ["alice", "x"]).out = ["Registration submitted for approval."] ∧
    (runOps [Op.register ["alice", "x"], Op.registrations ["alice"] ["y"]] alicePaid).map
        (fun s => (s.history? "alice", s.balance? "alice")) =
      some (some [], some F64.zero) ∧
    ¬ ([⟨1, "alice", "Payment", F64.ofInt 30, "t0", "food"⟩] : List Transaction) <+: [] := by
  refine ⟨by decide, by decide, by decide, by simp⟩

/-- C18 (evaluation at the failing input): from the empty ledger, alice is
registered and approved; a second registration of the id alice is then not
refused, and the id has an approved account and a pending registration at the
same time. -/
theorem C18_account_and_registration_coexist :
    (runOps [Op.register ["alice", "pw1"], Op.registrations ["alice"] ["y"]] emptyLedger).map
        (fun s => (registerAccount s ["alice", "pw2"]).out) =
      some ["Registration submitted for approval."] ∧
    (runOps [Op.register ["alice", "pw1"], Op.registrations ["alice"] ["y"],
        Op.register ["alice", "pw2"]] emptyLedger).map
        (fun s => (s.account? "alice", GoMap.get? s.registrations "alice")) =
      some (some ⟨"alice", "pw1", F64.zero, true, []⟩, some ⟨"alice", "pw2"⟩) := by
  refine ⟨by decide, by decide⟩

/-! ## What a transfer or a payment can do to the state -/

/-- The account object after a transfer to itself. -/
def selfTransferred (c : Account) (amount : F64) (now1 now2 recipientID : String) : Account :=
  { c with
    Balance := F64.add (F64.sub c.Balance amount) amount
    Transactions := c.Transactions ++
      [⟨c.Transactions.length + 1, c.ID, "Transfer", amount, now1,
          "Transferred to " ++ recipientID⟩,
        ⟨c.Transactions.length + 2, c.ID, "Transfer", amount, now2,
          "Received from " ++ c.ID⟩] }

/-- The account object after a payment. -/
def paid (c : Account) (amount : F64) (now paymentType : String) : Account :=
  { c with
    Balance := F64.sub c.Balance amount
    Transactions := c.Transactions ++
      [⟨c.Transactions.length + 1, c.ID, "Payment", amount, now, paymentType⟩] }

theorem transferMoney_cases (parse : String → Option F64) (now1 now2 : String) (s : State)
    (sc : List String) (r : Run) (h : transferMoney parse now1 now2 s sc = some r) :
    r.st = s ∨
    ∃ recipientID amount cu p c0 r0,
      s.currentUser = some cu ∧ GoMap.get? s.accounts recipientID = some p ∧
      s.deref cu = some c0 ∧ s.deref p = some r0 ∧
      ((cu ≠ p ∧ r.st = (s.store cu (debited c0 amount now1 recipientID)).store p
          (credited r0 amount now2 c0.ID)) ∨
       (cu = p ∧ r.st = s.store cu (selfTransferred c0 amount now1 now2 recipientID))) := by
  rcases sc with _ | ⟨recipientID, _ | ⟨amountStr, rest⟩⟩
  · left; simp [transferMoney] at h; rw [← h]
  · left; simp [transferMoney] at h; rw [← h]
  cases hparse : parse amountStr with
  | none => left; simp [transferMoney, hparse] at h; rw [← h]
  | some amount =>
    by_cases hle : F64.le amount F64.zero = true
    · left; simp [transferMoney, hparse, hle] at h; rw [← h]
    cases hrec : GoMap.get? s.accounts recipientID with
    | none => left; simp [transferMoney, hparse, hle, hrec] at h; rw [← h]
    | some p =>
      cases hcu : s.currentUser with
      | none => simp [transferMoney, hparse, hle, hrec, hcu] at h
      | some cu =>
        cases hc : s.deref cu with
        | none => simp [transferMoney, hparse, hle, hrec, hcu, hc] at h
        | some c0 =>
          by_cases hlt : F64.lt c0.Balance amount = true
          · left; simp [transferMoney, hparse, hle, hrec, hcu, hc, hlt] at h; rw [← h]
          have hle' : F64.le amount F64.zero = false := by simpa using hle
          have hlt' : F64.lt c0.Balance amount = false := by simpa using hlt
          by_cases hne : cu = p
          · subst hne
            rw [transferMoney_self parse now1 now2 s recipientID amountStr rest amount cu c0
              hparse hle' hrec hcu hc hlt'] at h
            right
            exact ⟨recipientID, amount, cu, cu, c0, c0, rfl, hrec, hc, hc,
              Or.inr ⟨rfl, by cases h; rfl⟩⟩
          · cases hr : s.deref p with
            | none =>
              have hr1 : (s.store cu { c0 with Balance := F64.sub c0.Balance amount }).deref p =
                  none := by
                rw [State.deref_store_ne _ _ _ _ (Ne.symm hne)]; exact hr
              simp [transferMoney, hparse, hle, hrec, hcu, hc, hlt, hr1] at h
            | some r0 =>
              rw [transferMoney_distinct parse now1 now2 s recipientID amountStr rest amount cu p
                c0 r0 hparse hle' hrec hcu hc hr hlt' hne] at h
              right
              exact ⟨recipientID, amount, cu, p, c0, r0, rfl, hrec, hc, hr,
                Or.inl ⟨hne, by cases h; rfl⟩⟩

theorem makePayment_cases (parse : String → Option F64) (now : String) (s : State)
    (sc : List String) (r : Run) (h : makePayment parse now s sc = some r) :
    r.st = s ∨
    ∃ paymentType amount cu c0,
      s.currentUser = some cu ∧ s.deref cu = some c0 ∧
      r.st = s.store cu (paid c0 amount now paymentType) := by
  rcases sc with _ | ⟨paymentType, _ | ⟨amountStr, rest⟩⟩
  · left; simp [makePayment] at h; rw [← h]
  · left; simp [makePayment] at h; rw [← h]
  cases hparse : parse amountStr with
  | none => left; simp [makePayment, hparse] at h; rw [← h]
  | some amount =>
    by_cases hle : F64.le amount F64.zero = true
    · left; simp [makePayment, hparse, hle] at h; rw [← h]
    cases hcu : s.currentUser with
    | none => simp [makePayment, hparse, hle, hcu] at h
    | some cu =>
      cases hc : s.deref cu with
      | none => simp [makePayment, hparse, hle, hcu, hc] at h
      | some c0 =>
        by_cases hlt : F64.lt c0.Balance amount = true
        · left; simp [makePayment, hparse, hle, hcu, hc, hlt] at h; rw [← h]
        have hle' : F64.le amount F64.zero = false := by simpa using hle
        have hlt' : F64.lt c0.Balance amount = false := by simpa using hlt
        rw [makePayment_ok parse now s paymentType amountStr rest amount cu c0
          hparse hle' hcu hc hlt'] at h
        right
        exact ⟨paymentType, amount, cu, c0, rfl, hc, by cases h; rfl⟩

/-- How one transfer or payment can change one account object: not at all, or
by one of the four updates above. -/
def Touched (a a' : Account) : Prop :=
  a' = a ∨
  (∃ amount now recipientID, a' = debited a amount now recipientID) ∨
  (∃ amount now senderID, a' = credited a amount now senderID) ∨
  (∃ amount now1 now2 recipientID, a' = selfTransferred a amount now1 now2 recipientID) ∨
  (∃ amount now paymentType, a' = paid a amount now paymentType)

theorem State.deref_store_cases (s : State) (p q : ℕ) (a a' : Account)
    (h : (s.store p a).deref q = some a') :
    (q = p ∧ a' = a ∧ ∃ a0, s.deref p = some a0) ∨ (q ≠ p ∧ s.deref q = some a') := by
  by_cases hq : q = p
  · subst hq
    left
    simp only [State.deref, State.store] at h
    have hl : q < s.heap.length := by
      have := (List.getElem?_eq_some.mp h).1
      simpa using this
    simp [List.getElem?_set, hl] at h
    refine ⟨rfl, h.symm, s.heap[q], ?_⟩
    simp [State.deref, hl]
  · right
    rw [State.deref_store_ne _ _ _ _ hq] at h
    exact ⟨hq, h⟩

theorem transferMoney_touch (parse : String → Option F64) (now1 now2 : String) (s : State)
    (sc : List String) (r : Run) (h : transferMoney parse now1 now2 s sc = some r) :
    r.st.accounts = s.accounts ∧
    ∀ q a', r.st.deref q = some a' → ∃ a, s.deref q = some a ∧ Touched a a' := by
  rcases transferMoney_cases parse now1 now2 s sc r h with h1 |
    ⟨recipientID, amount, cu, p, c0, r0, _, _, hc, hr, ⟨hne, h1⟩ | ⟨heq, h1⟩⟩
  · rw [h1]; exact ⟨rfl, fun q a' hq => ⟨a', hq, Or.inl rfl⟩⟩
  · rw [h1]
    refine ⟨rfl, fun q a' hq => ?_⟩
    rcases State.deref_store_cases _ _ _ _ _ hq with ⟨hqp, ha, _⟩ | ⟨_, hq1⟩
    · subst hqp
      exact ⟨r0, hr, Or.inr (Or.inr (Or.inl ⟨amount, now2, c0.ID, ha⟩))⟩
    · rcases State.deref_store_cases _ _ _ _ _ hq1 with ⟨hqc, ha, _⟩ | ⟨_, hq2⟩
      · subst hqc
        exact ⟨c0, hc, Or.inr (Or.inl ⟨amount, now1, recipientID, ha⟩)⟩
      · exact ⟨a', hq2, Or.inl rfl⟩
  · rw [h1]
    refine ⟨rfl, fun q a' hq => ?_⟩
    rcases State.deref_store_cases _ _ _ _ _ hq with ⟨hqc, ha, _⟩ | ⟨_, hq1⟩
    · subst hqc
      exact ⟨c0, hc, Or.inr (Or.inr (Or.inr (Or.inl ⟨amount, now1, now2, recipientID, ha⟩)))⟩
    · exact ⟨a', hq1, Or.inl rfl⟩

theorem makePayment_touch (parse : String → Option F64) (now : String) (s : State)
    (sc : List String) (r : Run) (h : makePayment parse now s sc = some r) :
    r.st.accounts = s.accounts ∧
    ∀ q a', r.st.deref q = some a' → ∃ a, s.deref q = some a ∧ Touched a a' := by
  rcases makePayment_cases parse now s sc r h with h1 | ⟨paymentType, amount, cu, c0, _, hc, h1⟩
  · rw [h1]; exact ⟨rfl, fun q a' hq => ⟨a', hq, Or.inl rfl⟩⟩
  · rw [h1]
    refine ⟨rfl, fun q a' hq => ?_⟩
    rcases State.deref_store_cases _ _ _ _ _ hq with ⟨hqc, ha, _⟩ | ⟨_, hq1⟩
    · subst hqc
      exact ⟨c0, hc, Or.inr (Or.inr (Or.inr (Or.inr ⟨amount, now, paymentType, ha⟩)))⟩
    · exact ⟨a', hq1, Or.inl rfl⟩

/-- An account object carries the id `id` and owns every entry of its history. -/
def OwnsHistory (id : String) (a : Account) : Prop :=
  a.ID = id ∧ ∀ t ∈ a.Transactions, t.AccountID = a.ID

/-- Every account is stored under its own id and owns its whole history. -/
def Owned (s : State) : Prop :=
  ∀ id a, s.account? id = some a → OwnsHistory id a

theorem OwnsHistory_of_touched (id : String) (a a' : Account) (h : OwnsHistory id a)
    (ht : Touched a a') : OwnsHistory id a' := by
  obtain ⟨hid, hown⟩ := h
  rcases ht with h1 | ⟨amount, now, x, h1⟩ | ⟨amount, now, x, h1⟩ | ⟨amount, n1, n2, x, h1⟩ |
    ⟨amount, now, x, h1⟩
  · rw [h1]; exact ⟨hid, hown⟩
  all_goals
    subst h1
    refine ⟨hid, fun t ht => ?_⟩
    simp only [debited, credited, selfTransferred, paid, sentEntry, receivedEntry,
      List.mem_append, List.mem_cons, List.mem_singleton, List.not_mem_nil, or_false] at ht ⊢
    rcases ht with ht | ht
    · exact hown t ht
    · first
        | (rcases ht with ht | ht <;> rw [ht])
        | rw [ht]

theorem Owned_of_touch (s s' : State) (hacc : s'.accounts = s.accounts)
    (ht : ∀ q a', s'.deref q = some a' → ∃ a, s.deref q = some a ∧ Touched a a')
    (h : Owned s) : Owned s' := by
  intro id a' ha'
  simp only [State.account?, hacc] at ha'
  cases hp : GoMap.get? s.accounts id with
  | none => simp [hp] at ha'
  | some q =>
    simp only [hp, Option.some_bind] at ha'
    obtain ⟨a, ha, hta⟩ := ht q a' ha'
    exact OwnsHistory_of_touched id a a' (h id a (by simp [State.account?, hp, ha])) hta

theorem Owned_twoAccounts (a b : F64) : Owned (twoAccounts a b) := by
  intro id x hx
  simp only [State.account?, twoAccounts, GoMap.get?] at hx
  by_cases h1 : "alice" = id
  · subst h1
    simp [State.deref] at hx
    subst hx
    exact ⟨rfl, by simp⟩
  · by_cases h2 : "bob" = id
    · subst h2
      simp [State.deref] at hx
      subst hx
      exact ⟨rfl, by simp⟩
    · simp [h1, h2] at hx

/-! ## C13: every transaction belongs to the account that holds it -/

/-- C13: if every account of the table is stored under its own id and owns
every transaction of its history (each entry's `AccountID` is the account's
`ID`), then the same holds in the state left by any `transferMoney` call and by
any `makePayment` call, whatever the input, the recipient (the sender itself
included) and the amount. -/
theorem C13_ownership_preserved (parse : String → Option F64) (now1 now2 : String)
    (s : State) (sc : List String) (h : Owned s) :
    (∀ r, transferMoney parse now1 now2 s sc = some r → Owned r.st) ∧
    (∀ r, makePayment parse now1 s sc = some r → Owned r.st) := by
  constructor
  · intro r hr
    obtain ⟨hacc, ht⟩ := transferMoney_touch parse now1 now2 s sc r hr
    exact Owned_of_touch s r.st hacc ht h
  · intro r hr
    obtain ⟨hacc, ht⟩ := makePayment_touch parse now1 s sc r hr
    exact Owned_of_touch s r.st hacc ht h

/-- Witness for C13: alice (balance 50) transfers 30 to herself; the call
succeeds and the resulting state still has every history owned. -/
theorem C13_ownership_preserved_witness :
    Owned (twoAccounts (F64.ofInt 50) F64.zero) ∧
    ∃ r, transferMoney sampleParse "t1" "t2" (twoAccounts (F64.ofInt 50) F64.zero)
        ["alice", "30"] = some r ∧
      r.out = ["Transfer successful."] ∧ Owned r.st := by
  have hsome : ∃ r, transferMoney sampleParse "t1" "t2"
      (twoAccounts (F64.ofInt 50) F64.zero) ["alice", "30"] = some r ∧
      r.out = ["Transfer successful."] := by decide
  obtain ⟨r, hr, hout⟩ := hsome
  exact ⟨Owned_twoAccounts _ _, r, hr, hout,
    (C13_ownership_preserved sampleParse "t1" "t2" (twoAccounts (F64.ofInt 50) F64.zero)
      ["alice", "30"] (Owned_twoAccounts _ _)).1 r hr⟩

/-! ## Sequential transaction ids -/

/-- The k-th entry of the history has id k (counting from 1). -/
def SeqIds (a : Account) : Prop :=
  a.Transactions.map Transaction.ID = List.range' 1 a.Transactions.length

theorem SeqIds_of_touched (a a' : Account) (h : SeqIds a) (ht : Touched a a') : SeqIds a' := by
  unfold SeqIds at h ⊢
  rcases ht with h1 | ⟨amount, now, x, h1⟩ | ⟨amount, now, x, h1⟩ | ⟨amount, n1, n2, x, h1⟩ |
    ⟨amount, now, x, h1⟩
  · rw [h1]; exact h
  · subst h1
    simp [debited, sentEntry, h, List.range'_concat, Nat.add_comm]
  · subst h1
    simp [credited, receivedEntry, h, List.range'_concat, Nat.add_comm]
  · subst h1
    have e : a.Transactions.length + 2 = (a.Transactions.length + 1) + 1 := rfl
    simp only [selfTransferred, List.map_append, List.map_cons, List.map_nil, h,
      List.length_append, List.length_cons, List.length_nil, e, List.range'_concat]
    simp [Nat.add_comm, Nat.add_left_comm]
  · subst h1
    simp [paid, h, List.range'_concat, Nat.add_comm]

theorem touched_exists (s s' : State) (hlen : s'.heap.length = s.heap.length) (q : ℕ)
    (a : Account) (ha : s.deref q = some a) : ∃ a', s'.deref q = some a' := by
  simp only [State.deref] at ha ⊢
  have hl : q < s.heap.length := (List.getElem?_eq_some.mp ha).1
  exact ⟨s'.heap[q], by simp [hlen, hl]⟩

theorem transferMoney_heapLen (parse : String → Option F64) (now1 now2 : String) (s : State)
    (sc : List String) (r : Run) (h : transferMoney parse now1 now2 s sc = some r) :
    r.st.heap.length = s.heap.length := by
  rcases transferMoney_cases parse now1 now2 s sc r h with h1 |
    ⟨_, _, _, _, _, _, _, _, _, _, ⟨_, h1⟩ | ⟨_, h1⟩⟩ <;> rw [h1] <;> simp [State.store]

theorem makePayment_heapLen (parse : String → Option F64) (now : String) (s : State)
    (sc : List String) (r : Run) (h : makePayment parse now s sc = some r) :
    r.st.heap.length = s.heap.length := by
  rcases makePayment_cases parse now s sc r h with h1 | ⟨_, _, _, _, _, _, h1⟩
  · rw [h1]
  · rw [h1]; simp [State.store]

/-! ## C15: admin login -/

/-- C15: `loginadm` returns true exactly when the two lines read are "admin"
and "admin", whatever the state (the accounts table is not consulted). In every
case the accounts table is the same afterwards and so is every account object
that existed, hence every account the table holds. When it returns false the
whole state, `currentUser` included, is unchanged. -/
theorem C15_loginadm (s : State) (sc : List String) :
    ((loginadm s sc).2 = true ↔ ∃ rest, sc = "admin" :: "admin" :: rest) ∧
    (loginadm s sc).1.st.accounts = s.accounts ∧
    (∀ p a, s.deref p = some a → (loginadm s sc).1.st.deref p = some a) ∧
    (∀ k a, s.account? k = some a → (loginadm s sc).1.st.account? k = some a) ∧
    ((loginadm s sc).2 = false → (loginadm s sc).1.st = s) := by
  have hderef : ∀ p a, s.deref p = some a →
      ({ s with heap := s.heap ++ [⟨"admin", "admin", F64.zero, false, []⟩],
                currentUser := some s.heap.length } : State).deref p = some a := by
    intro p a h
    simp only [State.deref] at h ⊢
    have hl : p < s.heap.length := (List.getElem?_eq_some.mp h).1
    rw [List.getElem?_append_left hl]; exact h
  rcases sc with _ | ⟨id, _ | ⟨password, rest⟩⟩
  · simp [loginadm]
  · simp [loginadm]
  · by_cases hid : id = "admin" ∧ password = "admin"
    · obtain ⟨h1, h2⟩ := hid
      subst h1 h2
      refine ⟨by simp [loginadm], by simp [loginadm], ?_, ?_, by simp [loginadm]⟩
      · intro p a h
        simpa [loginadm] using hderef p a h
      · intro k a h
        simp only [State.account?] at h ⊢
        cases hp : GoMap.get? s.accounts k with
        | none => simp [hp] at h
        | some p =>
          simp only [hp, Option.some_bind] at h
          simpa [loginadm, hp] using hderef p a h
    · have hid' : ¬ (id = "admin" ∧ password = "admin") := hid
      refine ⟨?_, by simp [loginadm, hid], ?_, ?_, by simp [loginadm, hid]⟩
      · simp only [loginadm, hid, if_false, List.cons.injEq]
        constructor
        · intro h; cases h
        · rintro ⟨rest', h1, h2, _⟩; exact absurd ⟨h1, h2⟩ hid'
      · intro p a h; simpa [loginadm, hid] using h
      · intro k a h; simpa [loginadm, hid] using h

/-! ## C16: submitting a top-up -/

/-- C16: with a session on an account object `c` and input that parses to an
amount greater than 0, `topUpBalance` returns (it does not panic), appends
exactly one request at the end of the list, carrying the old `nextTopUpID`,
`c.ID`, the amount and `Approved = false`, adds one to `nextTopUpID`, and
leaves the account objects, the accounts table, the session and the
registrations as they were, so every balance and every history is unchanged and
the earlier requests are the same. -/
theorem C16_topUp_submitted (parse : String → Option F64) (now : String) (s : State)
    (amountStr : String) (rest : List String) (amount : F64) (c : Account)
    (hparse : parse amountStr = some amount) (hpos : F64.lt F64.zero amount = true)
    (hc : s.user? = some c) :
    ∃ r, topUpBalance parse now s (amountStr :: rest) = some r ∧
      r.out = ["Top up request submitted."] ∧
      r.st.topUpRequests = s.topUpRequests ++ [⟨s.nextTopUpID, c.ID, amount, now, false⟩] ∧
      r.st.nextTopUpID = s.nextTopUpID + 1 ∧
      r.st.heap = s.heap ∧ r.st.accounts = s.accounts ∧
      r.st.currentUser = s.currentUser ∧ r.st.registrations = s.registrations ∧
      (∀ id, r.st.balance? id = s.balance? id ∧ r.st.history? id = s.history? id) := by
  have hle : F64.le amount F64.zero = false := F64.le_zero_eq_false_of_pos amount hpos
  refine ⟨_, by simp only [topUpBalance, hparse, hle, hc]; rfl, rfl, rfl, rfl, rfl, rfl, rfl, rfl,
    fun id => ⟨rfl, rfl⟩⟩

/-- Witness for C16: alice (balance 50) asks for a top-up of 30. -/
theorem C16_topUp_submitted_witness :
    ∃ r, topUpBalance sampleParse "t1" (twoAccounts (F64.ofInt 50) F64.zero) ["30"] = some r ∧
      r.st.topUpRequests = [⟨1, "alice", F64.ofInt 30, "t1", false⟩] ∧
      r.st.nextTopUpID = 2 ∧ r.st.balance? "alice" = some (F64.ofInt 50) := by
  obtain ⟨r, hr, _, hreq, hnext, _, _, _, _, hbal⟩ :=
    C16_topUp_submitted sampleParse "t1" (twoAccounts (F64.ofInt 50) F64.zero) "30" []
      (F64.ofInt 30) ⟨"alice", "pw1", F64.ofInt 50, true, []⟩ (by decide) (by decide) (by decide)
  exact ⟨r, hr, hreq, hnext, by rw [(hbal "alice").1]; decide⟩

/-! ## C17: the menus and the accounts that top-up requests name -/

/-- Which menu loop of `main.go` is running: the loop of `main`, `userMenu` or
`adminMenu`. -/
inductive Mode where
  | top
  | user
  | admin
deriving DecidableEq

/-- One choice in a menu loop. `main` offers registration and the two logins
(a login that returns true enters the corresponding menu), `userMenu` offers
transfer, payment, top-up and logout, `adminMenu` offers the two admin passes
and logout. A choice the running menu does not offer prints "Invalid option."
and changes nothing. The read-only choices (balance, history, account list)
are not calls of `Op`. `none` is a panic. -/
def menuStep : Mode → Op → State → Option (Mode × State)
  | .top, .register sc, s => some (.top, (registerAccount s sc).st)
  | .top, .userLogin sc, s =>
    (loginusr s sc).map (fun r => (if r.2 then Mode.user else Mode.top, r.1.st))
  | .top, .adminLogin sc, s =>
    some (if (loginadm s sc).2 then Mode.admin else Mode.top, (loginadm s sc).1.st)
  | .user, .transfer parse now1 now2 sc, s =>
    (transferMoney parse now1 now2 s sc).map (fun r => (Mode.user, r.st))
  | .user, .payment parse now sc, s =>
    (makePayment parse now s sc).map (fun r => (Mode.user, r.st))
  | .user, .topUp parse now sc, s =>
    (topUpBalance parse now s sc).map (fun r => (Mode.user, r.st))
  | .user, .leave, s => some (.top, logout s)
  | .admin, .registrations order sc, s => some (.admin, (handleRegistrations order s sc).st)
  | .admin, .topUps sc, s => (handleTopUpRequests s sc).map (fun r => (Mode.admin, r.st))
  | .admin, .leave, s => some (.top, logout s)
  | m, _, s => some (m, s)

/-- A sequence of menu choices. -/
def runMenu : List Op → Mode → State → Option (Mode × State)
  | [], m, s => some (m, s)
  | op :: ops, m, s => (menuStep m op s).bind (fun ms => runMenu ops ms.1 ms.2)

/-- The ids carried by the account objects, by pointer. -/
def State.ids (s : State) : List String := s.heap.map Account.ID

/-- Every entry of the accounts table points to an object carrying the key. -/
def TableOk (s : State) : Prop :=
  ∀ k p, GoMap.get? s.accounts k = some p → ∃ a, s.deref p = some a ∧ a.ID = k

/-- Every top-up request names a key of the accounts table. -/
def RequestsOk (s : State) : Prop :=
  ∀ req ∈ s.topUpRequests, (GoMap.get? s.accounts req.AccountID).isSome = true

/-- In `userMenu` the session is an object whose id is a key of the table. -/
def SessionOk : Mode → State → Prop
  | .user, s => ∃ cu c, s.currentUser = some cu ∧ s.deref cu = some c ∧
      (GoMap.get? s.accounts c.ID).isSome = true
  | _, _ => True

/-- The invariant of the menu loops. -/
def MenuInv (m : Mode) (s : State) : Prop := TableOk s ∧ RequestsOk s ∧ SessionOk m s

/-- Two states with the same table, the same ids on the same pointers, the same
account ids in the request list and the same session. -/
def SameIds (s s' : State) : Prop :=
  s'.accounts = s.accounts ∧ s'.ids = s.ids ∧
  s'.topUpRequests.map TopUpRequest.AccountID = s.topUpRequests.map TopUpRequest.AccountID ∧
  s'.currentUser = s.currentUser

theorem State.ids_getElem? (s : State) (p : ℕ) (k : String) :
    s.ids[p]? = some k ↔ ∃ a, s.deref p = some a ∧ a.ID = k := by
  simp [State.ids, State.deref, List.getElem?_map, Option.map_eq_some']

theorem SameIds.refl (s : State) : SameIds s s := ⟨rfl, rfl, rfl, rfl⟩

theorem SameIds.trans (s s1 s2 : State) (h1 : SameIds s s1) (h2 : SameIds s1 s2) :
    SameIds s s2 :=
  ⟨h2.1.trans h1.1, h2.2.1.trans h1.2.1, h2.2.2.1.trans h1.2.2.1, h2.2.2.2.trans h1.2.2.2⟩

theorem SameIds_store (s : State) (p : ℕ) (a a' : Account) (h : s.deref p = some a)
    (hid : a'.ID = a.ID) : SameIds s (s.store p a') := by
  refine ⟨rfl, ?_, rfl, rfl⟩
  simp only [State.ids, State.store, State.deref] at h ⊢
  apply List.ext_getElem?
  intro n
  simp only [List.getElem?_map, List.getElem?_set]
  by_cases hn : p = n
  · subst hn
    have hl : p < s.heap.length := (List.getElem?_eq_some.mp h).1
    simp [hl, h, hid]
  · simp [hn]

theorem TableOk_of_sameIds (s s' : State) (h : SameIds s s') (ht : TableOk s) : TableOk s' := by
  intro k p hk
  rw [h.1] at hk
  rw [← State.ids_getElem?, h.2.1, State.ids_getElem?]
  exact ht k p hk

theorem RequestsOk_of_sameIds (s s' : State) (h : SameIds s s') (ht : RequestsOk s) :
    RequestsOk s' := by
  intro req hreq
  have hm : req.AccountID ∈ s'.topUpRequests.map TopUpRequest.AccountID :=
    List.mem_map_of_mem _ hreq
  rw [h.2.2.1, List.mem_map] at hm
  obtain ⟨req0, h0, he⟩ := hm
  rw [h.1, ← he]
  exact ht req0 h0

theorem SessionOk_of_sameIds (m : Mode) (s s' : State) (h : SameIds s s')
    (ht : SessionOk m s) : SessionOk m s' := by
  cases m with
  | user =>
    obtain ⟨cu, c, hcu, hc, hk⟩ := ht
    have hi : s'.ids[cu]? = some c.ID := by
      rw [h.2.1, State.ids_getElem?]; exact ⟨c, hc, rfl⟩
    obtain ⟨c', hc', hid⟩ := (State.ids_getElem? s' cu c.ID).mp hi
    exact ⟨cu, c', h.2.2.2.trans hcu, hc', by rw [hid, h.1]; exact hk⟩
  | top => trivial
  | admin => trivial

theorem MenuInv_of_sameIds (m : Mode) (s s' : State) (h : SameIds s s') (ht : MenuInv m s) :
    MenuInv m s' :=
  ⟨TableOk_of_sameIds s s' h ht.1, RequestsOk_of_sameIds s s' h ht.2.1,
    SessionOk_of_sameIds m s s' h ht.2.2⟩

theorem registerAccount_sameIds (s : State) (sc : List String) :
    SameIds s (registerAccount s sc).st := by
  unfold registerAccount
  split
  · exact SameIds.refl s
  · split
    · exact SameIds.refl s
    · split
      · exact SameIds.refl s
      · exact ⟨rfl, rfl, rfl, rfl⟩

theorem loginusr_inv (s : State) (sc : List String) (ht : TableOk s) :
    ∃ r, loginusr s sc = some r ∧
      ((r.2 = false ∧ r.1.st = s) ∨
       (r.2 = true ∧ ∃ id p, GoMap.get? s.accounts id = some p ∧
          r.1.st = { s with currentUser := some p })) := by
  rcases sc with _ | ⟨id, _ | ⟨password, rest⟩⟩
  · exact ⟨_, rfl, Or.inl ⟨rfl, rfl⟩⟩
  · exact ⟨_, rfl, Or.inl ⟨rfl, rfl⟩⟩
  · cases hp : GoMap.get? s.accounts id with
    | none =>
      exact ⟨(⟨s, rest, ["Invalid credentials or account not approved."]⟩, false),
        by simp only [loginusr, hp], Or.inl ⟨rfl, rfl⟩⟩
    | some p =>
      obtain ⟨a, ha, _⟩ := ht id p hp
      by_cases hbad : a.Password ≠ password ∨ a.Approved = false
      · exact ⟨(⟨s, rest, ["Invalid credentials or account not approved."]⟩, false),
          by simp only [loginusr, hp, ha, hbad, if_true], Or.inl ⟨rfl, rfl⟩⟩
      · exact ⟨(⟨{ s with currentUser := some p }, rest, []⟩, true),
          by simp only [loginusr, hp, ha, hbad, if_false], Or.inr ⟨rfl, id, p, hp, rfl⟩⟩

theorem deref_append (s : State) (extra : List Account) (cur : Option ℕ) (p : ℕ) (a : Account)
    (h : s.deref p = some a) :
    ({ s with heap := s.heap ++ extra, currentUser := cur } : State).deref p = some a := by
  simp only [State.deref] at h ⊢
  have hl : p < s.heap.length := (List.getElem?_eq_some.mp h).1
  rw [List.getElem?_append_left hl]; exact h

theorem loginadm_inv (s : State) (sc : List String) (ht : TableOk s) (hr : RequestsOk s) :
    TableOk (loginadm s sc).1.st ∧ RequestsOk (loginadm s sc).1.st := by
  unfold loginadm
  split
  · exact ⟨ht, hr⟩
  · split
    · exact ⟨ht, hr⟩
    · split
      · refine ⟨fun k p hk => ?_, hr⟩
        obtain ⟨a, ha, hid⟩ := ht k p hk
        exact ⟨a, deref_append s _ _ p a ha, hid⟩
      · exact ⟨ht, hr⟩

theorem Touched_ID (a a' : Account) (h : Touched a a') : a'.ID = a.ID := by
  rcases h with h1 | ⟨_, _, _, h1⟩ | ⟨_, _, _, h1⟩ | ⟨_, _, _, _, h1⟩ | ⟨_, _, _, h1⟩ <;>
    rw [h1] <;> rfl

theorem transferMoney_sameIds (parse : String → Option F64) (now1 now2 : String) (s : State)
    (sc : List String) (r : Run) (h : transferMoney parse now1 now2 s sc = some r) :
    SameIds s r.st := by
  rcases transferMoney_cases parse now1 now2 s sc r h with h1 |
    ⟨recipientID, amount, cu, p, c0, r0, _, _, hc, hr, ⟨hne, h1⟩ | ⟨_, h1⟩⟩
  · rw [h1]; exact SameIds.refl s
  · rw [h1]
    refine SameIds.trans _ _ _
      (SameIds_store s cu c0 (debited c0 amount now1 recipientID) hc rfl)
      (SameIds_store _ p r0 (credited r0 amount now2 c0.ID) ?_ rfl)
    rw [State.deref_store_ne _ _ _ _ (Ne.symm hne)]; exact hr
  · rw [h1]
    exact SameIds_store s cu c0 (selfTransferred c0 amount now1 now2 recipientID) hc rfl

theorem makePayment_sameIds (parse : String → Option F64) (now : String) (s : State)
    (sc : List String) (r : Run) (h : makePayment parse now s sc = some r) :
    SameIds s r.st := by
  rcases makePayment_cases parse now s sc r h with h1 |
    ⟨paymentType, amount, cu, c0, _, hc, h1⟩
  · rw [h1]; exact SameIds.refl s
  · rw [h1]
    exact SameIds_store s cu c0 (paid c0 amount now paymentType) hc rfl

theorem transferMoney_isSome (parse : String → Option F64) (now1 now2 : String) (s : State)
    (sc : List String) (cu : ℕ) (c0 : Account) (hcu : s.currentUser = some cu)
    (hc : s.deref cu = some c0) (ht : TableOk s) :
    ∃ r, transferMoney parse now1 now2 s sc = some r := by
  rcases sc with _ | ⟨recipientID, _ | ⟨amountStr, rest⟩⟩
  · exact ⟨_, rfl⟩
  · exact ⟨_, rfl⟩
  cases hparse : parse amountStr with
  | none => exact ⟨_, by simp only [transferMoney, hparse]; rfl⟩
  | some amount =>
    by_cases hle : F64.le amount F64.zero = true
    · exact ⟨_, by simp only [transferMoney, hparse, hle]; rfl⟩
    cases hrec : GoMap.get? s.accounts recipientID with
    | none => exact ⟨_, by simp only [transferMoney, hparse, hle, hrec]; rfl⟩
    | some p =>
      by_cases hlt : F64.lt c0.Balance amount = true
      · exact ⟨_, by simp only [transferMoney, hparse, hle, hrec, hcu, hc, hlt]; rfl⟩
      have hle' : F64.le amount F64.zero = false := by simpa using hle
      have hlt' : F64.lt c0.Balance amount = false := by simpa using hlt
      obtain ⟨r0, hr, _⟩ := ht recipientID p hrec
      by_cases hne : cu = p
      · subst hne
        exact ⟨_, transferMoney_self parse now1 now2 s recipientID amountStr rest amount cu c0
          hparse hle' hrec hcu hc hlt'⟩
      · exact ⟨_, transferMoney_distinct parse now1 now2 s recipientID amountStr rest amount cu p
          c0 r0 hparse hle' hrec hcu hc hr hlt' hne⟩

theorem makePayment_isSome (parse : String → Option F64) (now : String) (s : State)
    (sc : List String) (cu : ℕ) (c0 : Account) (hcu : s.currentUser = some cu)
    (hc : s.deref cu = some c0) :
    ∃ r, makePayment parse now s sc = some r := by
  rcases sc with _ | ⟨paymentType, _ | ⟨amountStr, rest⟩⟩
  · exact ⟨_, rfl⟩
  · exact ⟨_, rfl⟩
  cases hparse : parse amountStr with
  | none => exact ⟨_, by simp only [makePayment, hparse]; rfl⟩
  | some amount =>
    by_cases hle : F64.le amount F64.zero = true
    · exact ⟨_, by simp only [makePayment, hparse, hle]; rfl⟩
    by_cases hlt : F64.lt c0.Balance amount = true
    · exact ⟨_, by simp only [makePayment, hparse, hle, hcu, hc, hlt]; rfl⟩
    have hle' : F64.le amount F64.zero = false := by simpa using hle
    have hlt' : F64.lt c0.Balance amount = false := by simpa using hlt
    exact ⟨_, makePayment_ok parse now s paymentType amountStr rest amount cu c0
      hparse hle' hcu hc hlt'⟩

theorem topUpBalance_inv (parse : String → Option F64) (now : String) (s : State)
    (sc : List String) (h : MenuInv Mode.user s) :
    ∃ r, topUpBalance parse now s sc = some r ∧ MenuInv Mode.user r.st := by
  obtain ⟨ht, hr, cu, c, hcu, hc, hk⟩ := h
  have hinv : MenuInv Mode.user s := ⟨ht, hr, cu, c, hcu, hc, hk⟩
  have hu : s.user? = some c := by simp [State.user?, hcu, hc]
  rcases sc with _ | ⟨amountStr, rest⟩
  · exact ⟨⟨s, [], []⟩, rfl, hinv⟩
  cases hparse : parse amountStr with
  | none => exact ⟨⟨s, rest, ["Invalid amount."]⟩, by simp only [topUpBalance, hparse], hinv⟩
  | some amount =>
    by_cases hle : F64.le amount F64.zero = true
    · exact ⟨⟨s, rest, ["Invalid amount."]⟩, by simp only [topUpBalance, hparse, hle, if_true],
        hinv⟩
    · refine ⟨⟨{ s with
          topUpRequests := s.topUpRequests ++ [⟨s.nextTopUpID, c.ID, amount, now, false⟩],
          nextTopUpID := s.nextTopUpID + 1 }, rest, ["Top up request submitted."]⟩,
        by simp only [topUpBalance, hparse, hle, hu]; rfl, ?_, ?_, ?_⟩
      · exact fun k p hkp => ht k p hkp
      · intro req hreq
        simp only [List.mem_append, List.mem_singleton] at hreq
        rcases hreq with hreq | hreq
        · exact hr req hreq
        · rw [hreq]; exact hk
      · exact ⟨cu, c, hcu, hc, hk⟩

theorem deref_of_heap_append (s s' : State) (extra : List Account)
    (h : s'.heap = s.heap ++ extra) (p : ℕ) (a : Account) (hd : s.deref p = some a) :
    s'.deref p = some a := by
  simp only [State.deref] at hd ⊢
  have hl : p < s.heap.length := (List.getElem?_eq_some.mp hd).1
  rw [h, List.getElem?_append_left hl]; exact hd

theorem handleRegistrationsLoop_inv (order : List String) (s : State) (sc : List String)
    (ht : TableOk s) (hr : RequestsOk s) :
    TableOk (handleRegistrationsLoop order s sc).st ∧
      RequestsOk (handleRegistrationsLoop order s sc).st := by
  induction order generalizing s sc with
  | nil => exact ⟨ht, hr⟩
  | cons id order ih =>
    unfold handleRegistrationsLoop
    split
    · exact ih s sc ht hr
    · split
      · exact ⟨ht, hr⟩
      · rename_i reg _ _ ans sc1
        by_cases hy : ans = "y"
        · simp only [hy, if_true]
          refine ih _ _ ?_ ?_
          · intro k p hk
            dsimp only at hk
            by_cases hki : k = id
            · subst hki
              rw [GoMap.get?_set_same] at hk
              cases hk
              exact ⟨⟨k, reg.Password, F64.zero, true, []⟩, by simp [State.deref], rfl⟩
            · rw [GoMap.get?_set_ne _ _ _ _ hki] at hk
              obtain ⟨a, ha, hid⟩ := ht k p hk
              exact ⟨a, deref_of_heap_append s _ _ rfl p a ha, hid⟩
          · intro req hreq
            dsimp only at hreq ⊢
            by_cases hki : req.AccountID = id
            · rw [hki, GoMap.get?_set_same]; rfl
            · rw [GoMap.get?_set_ne _ _ _ _ hki]; exact hr req hreq
        · simp only [hy, if_false]
          exact ih _ _ (fun k p hk => ht k p hk) (fun req hreq => hr req hreq)

/-- State after the object `account` at `p` has been credited with the amount
of `request` and the request at index `i` has been marked approved. -/
def topUpApproved (s : State) (p : ℕ) (account : Account) (request : TopUpRequest) (i : ℕ) :
    State :=
  { s.store p { account with Balance := F64.add account.Balance request.Amount } with
    topUpRequests := s.topUpRequests.modify (fun r => { r with Approved := true }) i }

theorem handleTopUpLoop_done (request : TopUpRequest) (todo : List TopUpRequest) (i : ℕ)
    (s : State) (sc : List String) (happ : request.Approved = true) :
    handleTopUpLoop (request :: todo) i s sc = handleTopUpLoop todo (i + 1) s sc := by
  simp only [handleTopUpLoop, happ, if_true]

theorem handleTopUpLoop_eof (request : TopUpRequest) (todo : List TopUpRequest) (i : ℕ)
    (s : State) (happ : request.Approved = false) :
    handleTopUpLoop (request :: todo) i s [] = some ⟨s, [], []⟩ := by
  simp [handleTopUpLoop, happ]

theorem handleTopUpLoop_yes (request : TopUpRequest) (todo : List TopUpRequest) (i : ℕ)
    (s : State) (sc1 : List String) (p : ℕ) (account : Account)
    (happ : request.Approved = false)
    (hp : GoMap.get? s.accounts request.AccountID = some p) (ha : s.deref p = some account) :
    handleTopUpLoop (request :: todo) i s ("y" :: sc1) =
      (handleTopUpLoop todo (i + 1) (topUpApproved s p account request i) sc1).map
        (fun r => ⟨r.st, r.sc, "Top up approved." :: r.out⟩) := by
  simp [handleTopUpLoop, happ, hp, ha, topUpApproved, State.store]

theorem handleTopUpLoop_no (request : TopUpRequest) (todo : List TopUpRequest) (i : ℕ)
    (s : State) (ans : String) (sc1 : List String) (happ : request.Approved = false)
    (hans : ans ≠ "y") :
    handleTopUpLoop (request :: todo) i s (ans :: sc1) =
      (handleTopUpLoop todo (i + 1) s sc1).map
        (fun r => ⟨r.st, r.sc, "Top up rejected." :: r.out⟩) := by
  simp [handleTopUpLoop, happ, hans]

theorem map_AccountID_modify (l : List TopUpRequest) (i : ℕ) :
    (List.modify (fun r => { r with Approved := true }) i l).map TopUpRequest.AccountID =
      l.map TopUpRequest.AccountID := by
  induction l generalizing i with
  | nil => cases i <;> rfl
  | cons a l ih =>
    cases i with
    | zero => rfl
    | succ i =>
      have := ih i
      simp only [List.modify] at this
      simp [List.modify, List.modifyTailIdx, this]

theorem SameIds_topUpApproved (s : State) (p : ℕ) (account : Account) (request : TopUpRequest)
    (i : ℕ) (ha : s.deref p = some account) : SameIds s (topUpApproved s p account request i) :=
  ⟨rfl, (SameIds_store s p account
      { account with Balance := F64.add account.Balance request.Amount } ha rfl).2.1,
    map_AccountID_modify s.topUpRequests i, rfl⟩

theorem handleTopUpLoop_inv (todo : List TopUpRequest) (i : ℕ) (s : State) (sc : List String)
    (ht : TableOk s)
    (hk : ∀ req ∈ todo, (GoMap.get? s.accounts req.AccountID).isSome = true) :
    ∃ r, handleTopUpLoop todo i s sc = some r ∧ SameIds s r.st := by
  induction todo generalizing i s sc with
  | nil => exact ⟨⟨s, sc, []⟩, rfl, SameIds.refl s⟩
  | cons request todo ih =>
    have hk' : ∀ req ∈ todo, (GoMap.get? s.accounts req.AccountID).isSome = true :=
      fun req hreq => hk req (List.mem_cons_of_mem _ hreq)
    by_cases happ : request.Approved = true
    · rw [handleTopUpLoop_done request todo i s sc happ]
      exact ih (i + 1) s sc ht hk'
    have happ' : request.Approved = false := by simpa using happ
    rcases sc with _ | ⟨ans, sc1⟩
    · exact ⟨⟨s, [], []⟩, handleTopUpLoop_eof request todo i s happ', SameIds.refl s⟩
    by_cases hy : ans = "y"
    · subst hy
      obtain ⟨p, hp⟩ := Option.isSome_iff_exists.mp (hk request (List.mem_cons_self _ _))
      obtain ⟨account, ha, _⟩ := ht _ p hp
      have hs := SameIds_topUpApproved s p account request i ha
      obtain ⟨r, hr, hsame⟩ := ih (i + 1) (topUpApproved s p account request i) sc1
        (TableOk_of_sameIds _ _ hs ht) hk'
      rw [handleTopUpLoop_yes request todo i s sc1 p account happ' hp ha, hr]
      exact ⟨_, rfl, SameIds.trans _ _ _ hs hsame⟩
    · obtain ⟨r, hr, hsame⟩ := ih (i + 1) s sc1 ht hk'
      rw [handleTopUpLoop_no request todo i s ans sc1 happ' hy, hr]
      exact ⟨_, rfl, hsame⟩

theorem menuStep_inv (m : Mode) (op : Op) (s : State) (h : MenuInv m s) :
    ∃ m' s', menuStep m op s = some (m', s') ∧ MenuInv m' s' := by
  obtain ⟨ht, hr, hs⟩ := h
  have hinv : MenuInv m s := ⟨ht, hr, hs⟩
  cases m with
  | top =>
    cases op with
    | register sc =>
      exact ⟨_, _, rfl, MenuInv_of_sameIds _ _ _ (registerAccount_sameIds s sc) hinv⟩
    | userLogin sc =>
      obtain ⟨r, hr1, hcase⟩ := loginusr_inv s sc ht
      refine ⟨_, _, by simp only [menuStep, hr1]; rfl, ?_⟩
      rcases hcase with ⟨hf, hst⟩ | ⟨hf, id, p, hp, hst⟩
      · rw [hf, hst]; exact hinv
      · rw [hf, hst]
        obtain ⟨a, ha, hid⟩ := ht id p hp
        exact ⟨fun k q hk => ht k q hk, fun req hreq => hr req hreq,
          p, a, rfl, ha, by rw [hid]; exact Option.isSome_iff_exists.mpr ⟨p, hp⟩⟩
    | adminLogin sc =>
      refine ⟨_, _, rfl, (loginadm_inv s sc ht hr).1, (loginadm_inv s sc ht hr).2, ?_⟩
      by_cases hb : (loginadm s sc).2 = true
      · simp only [hb, if_true]; trivial
      · simp only [hb]; trivial
    | _ => exact ⟨_, _, rfl, hinv⟩
  | user =>
    obtain ⟨cu, c, hcu, hc, _⟩ := hs
    cases op with
    | transfer parse now1 now2 sc =>
      obtain ⟨r, hr1⟩ := transferMoney_isSome parse now1 now2 s sc cu c hcu hc ht
      exact ⟨_, _, by simp only [menuStep, hr1]; rfl,
        MenuInv_of_sameIds _ _ _ (transferMoney_sameIds parse now1 now2 s sc r hr1) hinv⟩
    | payment parse now sc =>
      obtain ⟨r, hr1⟩ := makePayment_isSome parse now s sc cu c hcu hc
      exact ⟨_, _, by simp only [menuStep, hr1]; rfl,
        MenuInv_of_sameIds _ _ _ (makePayment_sameIds parse now s sc r hr1) hinv⟩
    | topUp parse now sc =>
      obtain ⟨r, hr1, hi⟩ := topUpBalance_inv parse now s sc hinv
      exact ⟨_, _, by simp only [menuStep, hr1]; rfl, hi⟩
    | leave => exact ⟨_, _, rfl, fun k q hk => ht k q hk, fun req hreq => hr req hreq, trivial⟩
    | _ => exact ⟨_, _, rfl, hinv⟩
  | admin =>
    cases op with
    | registrations order sc =>
      exact ⟨_, _, rfl, (handleRegistrationsLoop_inv order s sc ht hr).1,
        (handleRegistrationsLoop_inv order s sc ht hr).2, trivial⟩
    | topUps sc =>
      obtain ⟨r, hr1, hsame⟩ := handleTopUpLoop_inv s.topUpRequests 0 s sc ht hr
      exact ⟨_, _, by simp only [menuStep, handleTopUpRequests, hr1]; rfl,
        MenuInv_of_sameIds _ _ _ hsame hinv⟩
    | leave => exact ⟨_, _, rfl, fun k q hk => ht k q hk, fun req hreq => hr req hreq, trivial⟩
    | _ => exact ⟨_, _, rfl, hinv⟩

theorem runMenu_inv (ops : List Op) (m : Mode) (s : State) (h : MenuInv m s) :
    ∃ m' s', runMenu ops m s = some (m', s') ∧ MenuInv m' s' := by
  induction ops generalizing m s with
  | nil => exact ⟨m, s, rfl, h⟩
  | cons op ops ih =>
    obtain ⟨m1, s1, h1, hi1⟩ := menuStep_inv m op s h
    obtain ⟨m2, s2, h2, hi2⟩ := ih m1 s1 hi1
    exact ⟨m2, s2, by simp only [runMenu, h1, Option.some_bind, h2], hi2⟩

theorem MenuInv_emptyLedger : MenuInv Mode.top emptyLedger :=
  ⟨fun k p hk => by simp [emptyLedger, GoMap.get?] at hk,
    fun req hreq => by simp [emptyLedger] at hreq, trivial⟩

/-- C17: start from the empty ledger in the menu of `main` and make any
sequence of menu choices (top-ups can only be submitted inside `userMenu`,
which is entered only through a successful `loginusr`). No choice panics, and in
the state reached every top-up request names a key of the accounts table whose
account object exists and carries that id; a pass of `handleTopUpRequests`
from that state returns for every input, so it never dereferences a missing
account. -/
theorem C17_topup_requests_reference_accounts (ops : List Op) :
    ∃ m s, runMenu ops Mode.top emptyLedger = some (m, s) ∧
      (∀ req ∈ s.topUpRequests, ∃ a, s.account? req.AccountID = some a ∧
        a.ID = req.AccountID) ∧
      ∀ sc, ∃ r, handleTopUpRequests s sc = some r := by
  obtain ⟨m, s, hrun, ht, hr, _⟩ := runMenu_inv ops Mode.top emptyLedger MenuInv_emptyLedger
  refine ⟨m, s, hrun, ?_, ?_⟩
  · intro req hreq
    obtain ⟨p, hp⟩ := Option.isSome_iff_exists.mp (hr req hreq)
    obtain ⟨a, ha, hid⟩ := ht _ p hp
    exact ⟨a, by simp [State.account?, hp, ha], hid⟩
  · intro sc
    obtain ⟨r, hr1, _⟩ := handleTopUpLoop_inv s.topUpRequests 0 s sc ht hr
    exact ⟨r, hr1⟩

/-- A run through the menus: alice registers, the admin approves her, she logs
in and asks for a top-up of 30, the admin approves it, and her balance is 30. -/
theorem runMenu_example :
    (runMenu [Op.register ["alice", "pw1"], Op.adminLogin ["admin", "admin"],
        Op.registrations ["alice"] ["y"], Op.leave, Op.userLogin ["alice", "pw1"],
        Op.topUp sampleParse "t1" ["30"], Op.leave, Op.adminLogin ["admin", "admin"],
        Op.topUps ["y"]] Mode.top emptyLedger).map
      (fun ms => (ms.1, ms.2.balance? "alice", ms.2.topUpRequests)) =
    some (Mode.admin, some (F64.ofInt 30), [⟨1, "alice", F64.ofInt 30, "t1", true⟩]) := by
  decide

/-! ## C19: one admin pass over the top-up requests -/

/-- The request list a pass is described to leave: an approved request is kept
without reading an answer; a pending one reads one answer and becomes approved
exactly on "y"; at end of input the remaining requests are kept. -/
def passRequests : List TopUpRequest → List String → List TopUpRequest
  | [], _ => []
  | req :: todo, sc =>
    if req.Approved then req :: passRequests todo sc
    else
      match sc with
      | [] => req :: todo
      | ans :: sc1 =>
        (if ans = "y" then { req with Approved := true } else req) :: passRequests todo sc1

/-- The balance a pass is described to leave on the account `id` that had
balance `b`: going through the requests in list order, each request of `id`
that was pending and is answered "y" adds its amount in `float64`. -/
def passCredit (id : String) : F64 → List TopUpRequest → List String → F64
  | b, [], _ => b
  | b, req :: todo, sc =>
    if req.Approved then passCredit id b todo sc
    else
      match sc with
      | [] => b
      | ans :: sc1 =>
        passCredit id (if ans = "y" ∧ req.AccountID = id then F64.add b req.Amount else b)
          todo sc1

theorem account?_topUpApproved (s : State) (p : ℕ) (account : Account)
    (request : TopUpRequest) (i : ℕ) (ht : TableOk s)
    (hp : GoMap.get? s.accounts request.AccountID = some p) (ha : s.deref p = some account)
    (id : String) (a : Account) (hid : s.account? id = some a) :
    (topUpApproved s p account request i).account? id =
      some { a with Balance :=
        if request.AccountID = id then F64.add a.Balance request.Amount else a.Balance } := by
  simp only [State.account?] at hid
  cases hq : GoMap.get? s.accounts id with
  | none => simp [hq] at hid
  | some q =>
    simp only [hq, Option.some_bind] at hid
    have e : (topUpApproved s p account request i).account? id =
        (s.store p { account with Balance := F64.add account.Balance request.Amount }).deref q := by
      simp only [State.account?, topUpApproved, State.store, hq, Option.some_bind, State.deref]
    rw [e]
    by_cases hk : request.AccountID = id
    · have hpq : q = p := by
        rw [hk, hq] at hp
        exact Option.some.inj hp
      rw [hpq, ha] at hid
      cases hid
      rw [hpq, State.deref_store_same s p _ account ha]
      simp [hk]
    · have hne : q ≠ p := by
        intro hqp
        subst hqp
        obtain ⟨a1, h1, hid1⟩ := ht _ q hp
        obtain ⟨a2, h2, hid2⟩ := ht _ q hq
        rw [h1] at h2
        cases h2
        exact hk (hid1.symm.trans hid2)
      rw [State.deref_store_ne _ _ _ _ hne, hid]
      simp [hk]

theorem handleTopUpLoop_spec (todo : List TopUpRequest) :
    ∀ (pre suf : List TopUpRequest) (s : State) (sc : List String), TableOk s →
      (∀ req ∈ todo, (GoMap.get? s.accounts req.AccountID).isSome = true) →
      s.topUpRequests = pre ++ todo ++ suf →
      ∃ r, handleTopUpLoop todo pre.length s sc = some r ∧
        r.st.accounts = s.accounts ∧
        r.st.topUpRequests = pre ++ passRequests todo sc ++ suf ∧
        ∀ id a, s.account? id = some a →
          r.st.account? id = some { a with Balance := passCredit id a.Balance todo sc } := by
  induction todo with
  | nil =>
    intro pre suf s sc _ _ hsplit
    exact ⟨⟨s, sc, []⟩, rfl, rfl, by simpa [passRequests] using hsplit,
      fun id a ha => by simpa [passCredit] using ha⟩
  | cons request todo ih =>
    intro pre suf s sc ht hk hsplit
    have hk' : ∀ req ∈ todo, (GoMap.get? s.accounts req.AccountID).isSome = true :=
      fun req hreq => hk req (List.mem_cons_of_mem _ hreq)
    have hsplit' : s.topUpRequests = (pre ++ [request]) ++ todo ++ suf := by simpa using hsplit
    have hsplit0 : s.topUpRequests = pre ++ request :: (todo ++ suf) := by simpa using hsplit
    have hlen : (pre ++ [request]).length = pre.length + 1 := by simp
    by_cases happ : request.Approved = true
    · obtain ⟨r, hr, hacc, hreqs, hbal⟩ := ih (pre ++ [request]) suf s sc ht hk' hsplit'
      rw [hlen] at hr
      refine ⟨r, by rw [handleTopUpLoop_done request todo _ s sc happ, hr], hacc, ?_, ?_⟩
      · simpa [passRequests, happ] using hreqs
      · intro id a ha
        simpa [passCredit, happ] using hbal id a ha
    have happ' : request.Approved = false := by simpa using happ
    rcases sc with _ | ⟨ans, sc1⟩
    · exact ⟨⟨s, [], []⟩, handleTopUpLoop_eof request todo _ s happ', rfl,
        by simpa [passRequests, happ'] using hsplit,
        fun id a ha => by simpa [passCredit, happ'] using ha⟩
    by_cases hy : ans = "y"
    · subst hy
      obtain ⟨p, hp⟩ := Option.isSome_iff_exists.mp (hk request (List.mem_cons_self _ _))
      obtain ⟨account, ha, _⟩ := ht _ p hp
      have hs := SameIds_topUpApproved s p account request pre.length ha
      have hsplit2 : (topUpApproved s p account request pre.length).topUpRequests =
          (pre ++ [{ request with Approved := true }]) ++ todo ++ suf := by
        simp only [topUpApproved, hsplit0, modify_append_length]
        simp
      have hlen2 : (pre ++ [{ request with Approved := true }]).length = pre.length + 1 := by
        simp
      obtain ⟨r, hr, hacc, hreqs, hbal⟩ := ih (pre ++ [{ request with Approved := true }]) suf
        (topUpApproved s p account request pre.length) sc1
        (TableOk_of_sameIds _ _ hs ht) hk' hsplit2
      rw [hlen2] at hr
      refine ⟨⟨r.st, r.sc, "Top up approved." :: r.out⟩,
        by rw [handleTopUpLoop_yes request todo _ s sc1 p account happ' hp ha, hr]; rfl,
        hacc, ?_, ?_⟩
      · simpa [passRequests, happ'] using hreqs
      · intro id a hida
        have h2 := hbal id _ (account?_topUpApproved s p account request pre.length ht hp ha
          id a hida)
        simpa [passCredit, happ'] using h2
    · obtain ⟨r, hr, hacc, hreqs, hbal⟩ := ih (pre ++ [request]) suf s sc1 ht hk' hsplit'
      rw [hlen] at hr
      refine ⟨⟨r.st, r.sc, "Top up rejected." :: r.out⟩,
        by rw [handleTopUpLoop_no request todo _ s ans sc1 happ' hy, hr]; rfl,
        hacc, ?_, ?_⟩
      · simpa [passRequests, happ', hy] using hreqs
      · intro id a hida
        simpa [passCredit, happ', hy] using hbal id a hida

theorem TableOk_of_twoAccounts (s : State) (a b : F64)
    (hh : s.heap = (twoAccounts a b).heap) (hacc : s.accounts = (twoAccounts a b).accounts) :
    TableOk s := by
  intro k p hk
  simp only [hacc, twoAccounts, GoMap.get?] at hk
  simp only [State.deref, hh, twoAccounts]
  by_cases h1 : "alice" = k
  · simp only [h1, if_true, Option.some.injEq] at hk
    subst hk
    exact ⟨_, rfl, h1⟩
  · by_cases h2 : "bob" = k
    · simp only [h1, h2, if_true, if_false, Option.some.injEq] at hk
      subst hk
      exact ⟨_, rfl, h2⟩
    · simp [h1, h2] at hk

/-- Alice has 2^53 and two pending top-up requests of 1 each. -/
def twoPending : State :=
  { twoAccounts (F64.ofInt 9007199254740992) F64.zero with
    topUpRequests := [⟨1, "alice", F64.ofInt 1, "t0", false⟩, ⟨2, "alice", F64.ofInt 1, "t0", false⟩]
    nextTopUpID := 3 }

/-- Alice and bob have 0; one request of alice is already approved, one request
of alice and one of bob are pending. -/
def mixedPending : State :=
  { twoAccounts F64.zero F64.zero with
    topUpRequests := [⟨1, "alice", F64.ofInt 50, "t0", true⟩, ⟨2, "alice", F64.ofInt 30, "t0", false⟩,
      ⟨3, "bob", F64.ofInt 40, "t0", false⟩]
    nextTopUpID := 4 }

/-- C19 (counterexample): alice has 2^53 = 9007199254740992 and two pending
requests of 1 each; the admin answers "y" to both. Both are approved and her
balance is still 2^53, although the old balance plus the sum of the two amounts,
2^53 + 2, is a `float64` value: the balance has not grown by the sum of the
amounts. -/
theorem C19_sum_of_amounts_counterexample :
    (handleTopUpRequests twoPending ["y", "y"]).map
        (fun r => (r.out, r.st.balance? "alice", r.st.topUpRequests.map TopUpRequest.Approved)) =
      some (["Top up approved.", "Top up approved."], some (F64.ofInt 9007199254740992),
        [true, true]) ∧
    twoPending.balance? "alice" = some (F64.ofInt 9007199254740992) ∧
    F64.add (F64.ofInt 1) (F64.ofInt 1) = F64.ofInt 2 ∧
    F64.add (F64.ofInt 9007199254740992) (F64.ofInt 2) = F64.ofInt 9007199254740994 ∧
    (F64.ofInt 9007199254740994).toRat = some 9007199254740994 ∧
    F64.ofInt 9007199254740994 ≠ F64.ofInt 9007199254740992 := by
  have h94 : F64.ofInt 9007199254740994 = F64.fin (2 ^ 52 + 1) 1 := by decide
  refine ⟨by decide, by decide, by decide, by decide, ?_, by decide⟩
  rw [h94]; norm_num [F64.toRat]

/-- C19 (amended): in a state where every table entry points to the object
carrying its key and every request names a key, `handleTopUpRequests` returns
for every input. The accounts table is unchanged; the request list becomes
`passRequests` (requests approved before the pass are kept and read no answer,
a pending request becomes approved exactly when its answer is "y", after the
end of the input nothing changes); every account keeps its id, password, flag
and history, and its balance becomes `passCredit`: the amounts of its requests
that were pending and answered "y" are added one after the other, in list
order, each with a `float64` addition. The state left satisfies the same two
conditions, so the statement applies to the next pass, in which the requests
approved here read no answer and add nothing; a pass over a list with no
pending request changes nothing at all. -/
theorem C19_topup_pass (s : State) (sc : List String) (ht : TableOk s) (hr : RequestsOk s) :
    ∃ r, handleTopUpRequests s sc = some r ∧
      r.st.accounts = s.accounts ∧
      r.st.topUpRequests = passRequests s.topUpRequests sc ∧
      (∀ id a, s.account? id = some a →
        r.st.account? id =
          some { a with Balance := passCredit id a.Balance s.topUpRequests sc }) ∧
      TableOk r.st ∧ RequestsOk r.st ∧
      ((∀ req ∈ s.topUpRequests, req.Approved = true) → r = ⟨s, sc, []⟩) := by
  obtain ⟨r, h1, hacc, hreqs, hbal⟩ :=
    handleTopUpLoop_spec s.topUpRequests [] [] s sc ht hr (by simp)
  obtain ⟨r', h1', hsame⟩ := handleTopUpLoop_inv s.topUpRequests 0 s sc ht hr
  have h0 : handleTopUpLoop s.topUpRequests 0 s sc = some r := h1
  rw [h0] at h1'
  cases h1'
  refine ⟨r, h0, hacc, by simpa using hreqs, hbal, TableOk_of_sameIds _ _ hsame ht,
    RequestsOk_of_sameIds _ _ hsame hr, fun hall => ?_⟩
  have h2 := handleTopUpLoop_approved s.topUpRequests 0 s sc hall
  rw [h0] at h2
  exact Option.some.inj h2

/-- Witness for C19: the request of alice that is already approved (50) is not
credited again, her pending request of 30 answered "y" is credited, bob's
pending request of 40 answered "n" is not and stays pending. -/
theorem C19_topup_pass_witness :
    ∃ r, handleTopUpRequests mixedPending ["y", "n"] = some r ∧
      r.st.topUpRequests.map TopUpRequest.Approved = [true, true, false] ∧
      r.st.balance? "alice" = some (F64.ofInt 30) ∧
      r.st.balance? "bob" = some F64.zero := by
  obtain ⟨r, hr, _, hreqs, hbal, _, _, _⟩ := C19_topup_pass mixedPending ["y", "n"]
    (TableOk_of_twoAccounts mixedPending F64.zero F64.zero rfl rfl)
    (by intro req hreq
        simp only [mixedPending, List.mem_cons, List.mem_singleton, List.not_mem_nil,
          or_false] at hreq
        rcases hreq with h | h | h <;> rw [h] <;> decide)
  refine ⟨r, hr, ?_, ?_, ?_⟩
  · rw [hreqs]; decide
  · have h := hbal "alice" ⟨"alice", "pw1", F64.zero, true, []⟩ (by decide)
    simp only [State.balance?, h, Option.map_some']
    decide
  · have h := hbal "bob" ⟨"bob", "pw2", F64.zero, true, []⟩ (by decide)
    simp only [State.balance?, h, Option.map_some']
    decide

/-! ## C20: a transfer to oneself -/

/-- C20 (counterexample): alice has 9007199254740994 = 2^53 + 2 and transfers 1
to herself. The transfer is accepted and her balance afterwards is 2^53, not the
balance she had: 2^53 + 1 is not a `float64` value, so the debit rounds to 2^53
and the credit of 1 rounds to 2^53 again. -/
theorem C20_self_transfer_counterexample :
    (twoAccounts (F64.ofInt 9007199254740994) F64.zero).balance? "alice" =
      some (F64.ofInt 9007199254740994) ∧
    F64.lt F64.zero (F64.ofInt 1) = true ∧
    F64.le (F64.ofInt 1) (F64.ofInt 9007199254740994) = true ∧
    (transferMoney sampleParse "t1" "t2" (twoAccounts (F64.ofInt 9007199254740994) F64.zero)
        ["alice", "1"]).map (fun r => (r.out, r.st.balance? "alice")) =
      some (["Transfer successful."], some (F64.ofInt 9007199254740992)) ∧
    F64.ofInt 9007199254740992 ≠ F64.ofInt 9007199254740994 := by
  refine ⟨by decide, by decide, by decide, by decide, by decide⟩

/-- C20 (amended): the session is on the account object `c0`, the table maps
`c0.ID` to that object, and the amount read is greater than 0 and at most the
balance. Then `transferMoney` with recipient id `c0.ID` returns with "Transfer
successful."; the balance of the account becomes the `float64` value
`(balance - amount) + amount`; its history grows by exactly two entries, in
order: id n+1 with details "Transferred to " followed by the id, and id n+2 with
details "Received from " followed by the id, where n is the old length; id,
password and flag of the account, the other account objects and the rest of the
state are unchanged. -/
theorem C20_self_transfer (parse : String → Option F64) (now1 now2 : String) (s : State)
    (amountStr : String) (rest : List String) (amount : F64) (cu : ℕ) (c0 : Account)
    (hparse : parse amountStr = some amount)
    (hpos : F64.lt F64.zero amount = true) (hfunds : F64.le amount c0.Balance = true)
    (hcu : s.currentUser = some cu) (hc : s.deref cu = some c0)
    (hrec : GoMap.get? s.accounts c0.ID = some cu) :
    ∃ r, transferMoney parse now1 now2 s (c0.ID :: amountStr :: rest) = some r ∧
      r.out = ["Transfer successful."] ∧
      r.st = s.store cu (selfTransferred c0 amount now1 now2 c0.ID) ∧
      r.st.account? c0.ID = some (selfTransferred c0 amount now1 now2 c0.ID) ∧
      r.st.balance? c0.ID = some (F64.add (F64.sub c0.Balance amount) amount) ∧
      r.st.history? c0.ID = some (c0.Transactions ++
        [⟨c0.Transactions.length + 1, c0.ID, "Transfer", amount, now1,
            "Transferred to " ++ c0.ID⟩,
          ⟨c0.Transactions.length + 2, c0.ID, "Transfer", amount, now2,
            "Received from " ++ c0.ID⟩]) ∧
      (∀ q, q ≠ cu → r.st.deref q = s.deref q) := by
  have h := transferMoney_self parse now1 now2 s c0.ID amountStr rest amount cu c0 hparse
    (F64.le_zero_eq_false_of_pos amount hpos) hrec hcu hc
    (F64.lt_eq_false_of_le amount c0.Balance hfunds)
  have hacc : (s.store cu (selfTransferred c0 amount now1 now2 c0.ID)).account? c0.ID =
      some (selfTransferred c0 amount now1 now2 c0.ID) := by
    have e : (s.store cu (selfTransferred c0 amount now1 now2 c0.ID)).account? c0.ID =
        (s.store cu (selfTransferred c0 amount now1 now2 c0.ID)).deref cu := by
      simp only [State.account?, State.store, hrec, Option.some_bind]
    rw [e, State.deref_store_same s cu _ c0 hc]
  refine ⟨_, h, rfl, rfl, hacc, ?_, ?_, fun q hq => State.deref_store_ne s cu q _ hq⟩
  · simp only [State.balance?]
    rw [show (s.store cu { c0 with
          Balance := F64.add (F64.sub c0.Balance amount) amount,
          Transactions := c0.Transactions ++
            [⟨c0.Transactions.length + 1, c0.ID, "Transfer", amount, now1,
                "Transferred to " ++ c0.ID⟩,
              ⟨c0.Transactions.length + 2, c0.ID, "Transfer", amount, now2,
                "Received from " ++ c0.ID⟩] }) =
        s.store cu (selfTransferred c0 amount now1 now2 c0.ID) from rfl, hacc]
    rfl
  · simp only [State.history?]
    rw [show (s.store cu { c0 with
          Balance := F64.add (F64.sub c0.Balance amount) amount,
          Transactions := c0.Transactions ++
            [⟨c0.Transactions.length + 1, c0.ID, "Transfer", amount, now1,
                "Transferred to " ++ c0.ID⟩,
              ⟨c0.Transactions.length + 2, c0.ID, "Transfer", amount, now2,
                "Received from " ++ c0.ID⟩] }) =
        s.store cu (selfTransferred c0 amount now1 now2 c0.ID) from rfl, hacc]
    rfl

/-- Witness for C20: alice has 50 and transfers 30 to herself; her balance is
50 again and her history holds the two entries with ids 1 and 2. -/
theorem C20_self_transfer_witness :
    ∃ r, transferMoney sampleParse "t1" "t2" (twoAccounts (F64.ofInt 50) F64.zero)
        ["alice", "30"] = some r ∧
      r.st.balance? "alice" = some (F64.ofInt 50) ∧
      r.st.history? "alice" = some
        [⟨1, "alice", "Transfer", F64.ofInt 30, "t1", "Transferred to alice"⟩,
          ⟨2, "alice", "Transfer", F64.ofInt 30, "t2", "Received from alice"⟩] := by
  obtain ⟨r, hr, _, _, _, hbal, hhist, _⟩ :=
    C20_self_transfer sampleParse "t1" "t2" (twoAccounts (F64.ofInt 50) F64.zero) "30" []
      (F64.ofInt 30) 0 ⟨"alice", "pw1", F64.ofInt 50, true, []⟩
      (by decide) (by decide) (by decide) rfl rfl rfl
  exact ⟨r, hr, by rw [hbal]; decide, by rw [hhist]; decide⟩

/-! ## C14: transaction ids within one account -/

/-- What every call does to the account objects and to the table, as far as
histories are concerned: objects are never removed, an object that exists keeps
sequential ids if it had them, an object allocated by the call has sequential
ids, and a key of the table stays a key, pointing to the same object or to one
allocated by the call. -/
def Grows (s s' : State) : Prop :=
  s.heap.length ≤ s'.heap.length ∧
  (∀ q a, s.deref q = some a → ∃ a', s'.deref q = some a' ∧ (SeqIds a → SeqIds a')) ∧
  (∀ q a', s'.deref q = some a' → s.heap.length ≤ q → SeqIds a') ∧
  (∀ k p, GoMap.get? s.accounts k = some p →
    ∃ p', GoMap.get? s'.accounts k = some p' ∧
      (p' = p ∨ (s.heap.length ≤ p' ∧ p' < s'.heap.length)))

theorem State.deref_lt (s : State) (q : ℕ) (a : Account) (h : s.deref q = some a) :
    q < s.heap.length := (List.getElem?_eq_some.mp h).1

theorem State.deref_of_lt (s : State) (q : ℕ) (h : q < s.heap.length) :
    ∃ a, s.deref q = some a := ⟨s.heap[q], by simp [State.deref, h]⟩

theorem Grows_trans (s s1 s2 : State) (h1 : Grows s s1) (h2 : Grows s1 s2) : Grows s s2 := by
  obtain ⟨l1, o1, n1, t1⟩ := h1
  obtain ⟨l2, o2, n2, t2⟩ := h2
  refine ⟨le_trans l1 l2, ?_, ?_, ?_⟩
  · intro q a ha
    obtain ⟨a1, ha1, f1⟩ := o1 q a ha
    obtain ⟨a2, ha2, f2⟩ := o2 q a1 ha1
    exact ⟨a2, ha2, fun h => f2 (f1 h)⟩
  · intro q a2 ha2 hq
    by_cases hlt : q < s1.heap.length
    · obtain ⟨a1, ha1⟩ := State.deref_of_lt s1 q hlt
      obtain ⟨a2', ha2', f⟩ := o2 q a1 ha1
      rw [ha2] at ha2'
      cases ha2'
      exact f (n1 q a1 ha1 hq)
    · exact n2 q a2 ha2 (not_lt.mp hlt)
  · intro k p hk
    obtain ⟨p1, hp1, c1⟩ := t1 k p hk
    obtain ⟨p2, hp2, c2⟩ := t2 k p1 hp1
    refine ⟨p2, hp2, ?_⟩
    rcases c2 with c2 | ⟨c2a, c2b⟩
    · rcases c1 with c1 | ⟨c1a, c1b⟩
      · left; rw [c2, c1]
      · right; rw [c2]; exact ⟨c1a, lt_of_lt_of_le c1b l2⟩
    · right; exact ⟨le_trans l1 c2a, c2b⟩

theorem Grows_of_touch (s s' : State) (hacc : s'.accounts = s.accounts)
    (hlen : s'.heap.length = s.heap.length)
    (ht : ∀ q a', s'.deref q = some a' → ∃ a, s.deref q = some a ∧ (SeqIds a → SeqIds a')) :
    Grows s s' := by
  refine ⟨le_of_eq hlen.symm, ?_, ?_, ?_⟩
  · intro q a ha
    obtain ⟨a', ha'⟩ := State.deref_of_lt s' q (by rw [hlen]; exact State.deref_lt s q a ha)
    obtain ⟨a0, ha0, f⟩ := ht q a' ha'
    rw [ha] at ha0
    cases ha0
    exact ⟨a', ha', f⟩
  · intro q a' ha' hq
    have := State.deref_lt s' q a' ha'
    omega
  · intro k p hk
    exact ⟨p, by rw [hacc]; exact hk, Or.inl rfl⟩

theorem Grows_of_same (s s' : State) (hh : s'.heap = s.heap) (hacc : s'.accounts = s.accounts) :
    Grows s s' := by
  refine Grows_of_touch s s' hacc (by rw [hh]) (fun q a' ha' => ⟨a', ?_, fun h => h⟩)
  simpa [State.deref, hh] using ha'

theorem Grows_append (s s' : State) (new : Account) (hh : s'.heap = s.heap ++ [new])
    (hnew : new.Transactions = [])
    (hacc : ∀ k p, GoMap.get? s.accounts k = some p →
      GoMap.get? s'.accounts k = some p ∨ GoMap.get? s'.accounts k = some s.heap.length) :
    Grows s s' := by
  refine ⟨by simp [hh], ?_, ?_, ?_⟩
  · intro q a ha
    exact ⟨a, deref_of_heap_append s s' [new] hh q a ha, fun h => h⟩
  · intro q a' ha' hq
    have hlt := State.deref_lt s' q a' ha'
    have hq' : q = s.heap.length := by
      simp [hh] at hlt
      omega
    subst hq'
    simp [State.deref, hh] at ha'
    rw [← ha']
    simp [SeqIds, hnew]
  · intro k p hk
    rcases hacc k p hk with h | h
    · exact ⟨p, h, Or.inl rfl⟩
    · exact ⟨s.heap.length, h, Or.inr ⟨le_refl _, by simp [hh]⟩⟩

theorem registerAccount_grows (s : State) (sc : List String) :
    Grows s (registerAccount s sc).st := by
  unfold registerAccount
  split
  · exact Grows_of_same _ _ rfl rfl
  · split
    · exact Grows_of_same _ _ rfl rfl
    · split <;> exact Grows_of_same _ _ rfl rfl

theorem loginadm_grows (s : State) (sc : List String) : Grows s (loginadm s sc).1.st := by
  unfold loginadm
  split
  · exact Grows_of_same _ _ rfl rfl
  · split
    · exact Grows_of_same _ _ rfl rfl
    · split
      · exact Grows_append s _ ⟨"admin", "admin", F64.zero, false, []⟩ rfl rfl
          (fun k p hk => Or.inl hk)
      · exact Grows_of_same _ _ rfl rfl

theorem loginusr_grows (s : State) (sc : List String) (r : Run × Bool)
    (h : loginusr s sc = some r) : Grows s r.1.st := by
  unfold loginusr at h
  repeat' split at h
  all_goals (cases h <;> exact Grows_of_same _ _ rfl rfl)

theorem handleRegistrationsLoop_grows (order : List String) (s : State) (sc : List String) :
    Grows s (handleRegistrationsLoop order s sc).st := by
  induction order generalizing s sc with
  | nil => exact Grows_of_same _ _ rfl rfl
  | cons id order ih =>
    unfold handleRegistrationsLoop
    split
    · exact ih s sc
    · split
      · exact Grows_of_same _ _ rfl rfl
      · rename_i reg _ _ ans sc1
        by_cases hy : ans = "y"
        · simp only [hy, if_true]
          refine Grows_trans _ _ _ ?_ (ih _ _)
          refine Grows_append s _ ⟨id, reg.Password, F64.zero, true, []⟩ rfl rfl ?_
          intro k p hk
          by_cases hki : k = id
          · right
            rw [hki]
            exact GoMap.get?_set_same _ _ _
          · left
            exact (GoMap.get?_set_ne _ _ _ _ hki).trans hk
        · simp only [hy, if_false]
          refine Grows_trans _ _ _ ?_ (ih _ _)
          exact Grows_of_same _ _ rfl rfl

theorem transferMoney_grows (parse : String → Option F64) (now1 now2 : String) (s : State)
    (sc : List String) (r : Run) (h : transferMoney parse now1 now2 s sc = some r) :
    Grows s r.st := by
  obtain ⟨hacc, ht⟩ := transferMoney_touch parse now1 now2 s sc r h
  refine Grows_of_touch s r.st hacc (transferMoney_heapLen parse now1 now2 s sc r h) ?_
  intro q a' ha'
  obtain ⟨a, ha, hta⟩ := ht q a' ha'
  exact ⟨a, ha, fun hs => SeqIds_of_touched a a' hs hta⟩

theorem makePayment_grows (parse : String → Option F64) (now : String) (s : State)
    (sc : List String) (r : Run) (h : makePayment parse now s sc = some r) :
    Grows s r.st := by
  obtain ⟨hacc, ht⟩ := makePayment_touch parse now s sc r h
  refine Grows_of_touch s r.st hacc (makePayment_heapLen parse now s sc r h) ?_
  intro q a' ha'
  obtain ⟨a, ha, hta⟩ := ht q a' ha'
  exact ⟨a, ha, fun hs => SeqIds_of_touched a a' hs hta⟩

theorem topUpBalance_grows (parse : String → Option F64) (now : String) (s : State)
    (sc : List String) (r : Run) (h : topUpBalance parse now s sc = some r) :
    Grows s r.st := by
  unfold topUpBalance at h
  repeat' split at h
  all_goals (cases h <;> exact Grows_of_same _ _ rfl rfl)

theorem Grows_topUpApproved (s : State) (p : ℕ) (account : Account) (request : TopUpRequest)
    (i : ℕ) (ha : s.deref p = some account) : Grows s (topUpApproved s p account request i) := by
  refine Grows_of_touch s _ rfl (by simp [topUpApproved, State.store]) ?_
  intro q a' ha'
  have ha'' : (s.store p { account with
      Balance := F64.add account.Balance request.Amount }).deref q = some a' := ha'
  rcases State.deref_store_cases _ _ _ _ _ ha'' with ⟨hq, he, _⟩ | ⟨_, hq⟩
  · subst hq
    exact ⟨account, ha, fun hs => by rw [he]; exact hs⟩
  · exact ⟨a', hq, fun hs => hs⟩

theorem handleTopUpLoop_grows (todo : List TopUpRequest) (i : ℕ) (s : State)
    (sc : List String) (r : Run) (h : handleTopUpLoop todo i s sc = some r) :
    Grows s r.st := by
  induction todo generalizing i s sc r with
  | nil =>
    simp only [handleTopUpLoop] at h
    cases h
    exact Grows_of_same _ _ rfl rfl
  | cons request todo ih =>
    by_cases happ : request.Approved = true
    · rw [handleTopUpLoop_done request todo i s sc happ] at h
      exact ih _ _ _ r h
    have happ' : request.Approved = false := by simpa using happ
    rcases sc with _ | ⟨ans, sc1⟩
    · rw [handleTopUpLoop_eof request todo i s happ'] at h
      cases h
      exact Grows_of_same _ _ rfl rfl
    by_cases hy : ans = "y"
    · subst hy
      cases hp : GoMap.get? s.accounts request.AccountID with
      | none => simp [handleTopUpLoop, happ', hp] at h
      | some p =>
        cases ha : s.deref p with
        | none => simp [handleTopUpLoop, happ', hp, ha] at h
        | some account =>
          rw [handleTopUpLoop_yes request todo i s sc1 p account happ' hp ha,
            Option.map_eq_some'] at h
          obtain ⟨r', hr', he⟩ := h
          rw [← he]
          exact Grows_trans _ _ _ (Grows_topUpApproved s p account request i ha)
            (ih _ _ _ r' hr')
    · rw [handleTopUpLoop_no request todo i s ans sc1 happ' hy, Option.map_eq_some'] at h
      obtain ⟨r', hr', he⟩ := h
      rw [← he]
      exact ih _ _ _ r' hr'

theorem Op.exec_grows (op : Op) (s s' : State) (h : op.exec s = some s') : Grows s s' := by
  cases op with
  | register sc =>
    simp only [Op.exec, Option.some.injEq] at h
    rw [← h]; exact registerAccount_grows s sc
  | adminLogin sc =>
    simp only [Op.exec, Option.some.injEq] at h
    rw [← h]; exact loginadm_grows s sc
  | userLogin sc =>
    simp only [Op.exec, Option.map_eq_some'] at h
    obtain ⟨r, hr, he⟩ := h
    rw [← he]; exact loginusr_grows s sc r hr
  | leave =>
    simp only [Op.exec, Option.some.injEq] at h
    rw [← h]; exact Grows_of_same _ _ rfl rfl
  | registrations order sc =>
    simp only [Op.exec, Option.some.injEq] at h
    rw [← h]; exact handleRegistrationsLoop_grows order s sc
  | transfer parse now1 now2 sc =>
    simp only [Op.exec, Option.map_eq_some'] at h
    obtain ⟨r, hr, he⟩ := h
    rw [← he]; exact transferMoney_grows parse now1 now2 s sc r hr
  | payment parse now sc =>
    simp only [Op.exec, Option.map_eq_some'] at h
    obtain ⟨r, hr, he⟩ := h
    rw [← he]; exact makePayment_grows parse now s sc r hr
  | topUp parse now sc =>
    simp only [Op.exec, Option.map_eq_some'] at h
    obtain ⟨r, hr, he⟩ := h
    rw [← he]; exact topUpBalance_grows parse now s sc r hr
  | topUps sc =>
    simp only [Op.exec, Option.map_eq_some'] at h
    obtain ⟨r, hr, he⟩ := h
    rw [← he]; exact handleTopUpLoop_grows _ _ s sc r hr

theorem runOps_grows (ops : List Op) (s s' : State) (h : runOps ops s = some s') :
    Grows s s' := by
  induction ops generalizing s with
  | nil =>
    simp only [runOps, Option.some.injEq] at h
    rw [← h]; exact Grows_of_same _ _ rfl rfl
  | cons op ops ih =>
    simp only [runOps, Option.bind_eq_some] at h
    obtain ⟨s1, h1, h2⟩ := h
    exact Grows_trans _ _ _ (Op.exec_grows op s s1 h1) (ih s1 h2)

/-- C14: take an account whose history is empty (as approval creates it) and
run any sequence of calls whatever: transfers and payments by any sessions,
with logins and logouts between them, transfers of the account to itself and
transfers received from other accounts included, as well as registrations and
admin passes. The id is still in the table and the k-th transaction of the
account's history has id k (the ids are 1, 2, ..., n in history order), so no
two of its transactions share an id. -/
theorem C14_transaction_ids_sequential (ops : List Op) (s s' : State) (id : String)
    (a : Account) (ha : s.account? id = some a) (hnew : a.Transactions = [])
    (hrun : runOps ops s = some s') :
    ∃ a', s'.account? id = some a' ∧
      a'.Transactions.map Transaction.ID = List.range' 1 a'.Transactions.length ∧
      (∀ k (hk : k < a'.Transactions.length), (a'.Transactions.get ⟨k, hk⟩).ID = k + 1) ∧
      (a'.Transactions.map Transaction.ID).Nodup := by
  obtain ⟨_, hold, hfresh, htab⟩ := runOps_grows ops s s' hrun
  simp only [State.account?] at ha
  cases hp : GoMap.get? s.accounts id with
  | none => simp [hp] at ha
  | some q =>
    simp only [hp, Option.some_bind] at ha
    have key : ∃ a', s'.account? id = some a' ∧ SeqIds a' := by
      obtain ⟨p', hp', hcase⟩ := htab id q hp
      rcases hcase with h1 | ⟨h1, h2⟩
      · obtain ⟨a', ha', f⟩ := hold q a ha
        exact ⟨a', by simp [State.account?, hp', h1, ha'], f (by simp [SeqIds, hnew])⟩
      · obtain ⟨a', ha'⟩ := State.deref_of_lt s' p' h2
        exact ⟨a', by simp [State.account?, hp', ha'], hfresh p' a' ha' h1⟩
    obtain ⟨a', ha', hs⟩ := key
    refine ⟨a', ha', hs, ?_, ?_⟩
    · intro k hk
      have h1 : (a'.Transactions.map Transaction.ID)[k]? =
          (List.range' 1 a'.Transactions.length)[k]? := by
        rw [hs]
      simp [List.getElem?_range', hk] at h1
      simp only [List.get_eq_getElem]
      omega
    · rw [hs]; exact List.nodup_range' 1 _

/-- Witness for C14, with two sessions: alice pays 1 and logs out, bob logs in
and transfers 30 to alice and logs out, alice logs in and transfers 30 to
herself. Her four transactions (a payment, a transfer received from bob, and
the two entries of the transfer to herself) have the ids 1, 2, 3, 4. -/
theorem C14_transaction_ids_sequential_witness :
    ∃ s', runOps [Op.payment sampleParse "t1" ["food", "1"], Op.leave,
        Op.userLogin ["bob", "pw2"], Op.transfer sampleParse "t2" "t3" ["alice", "30"],
        Op.leave, Op.userLogin ["alice", "pw1"],
        Op.transfer sampleParse "t4" "t5" ["alice", "30"]]
        (twoAccounts (F64.ofInt 50) (F64.ofInt 50)) = some s' ∧
      (s'.history? "alice").map (List.map Transaction.Details) =
        some ["food", "Received from bob", "Transferred to alice", "Received from alice"] ∧
      (s'.history? "alice").map (List.map Transaction.ID) = some [1, 2, 3, 4] ∧
      ∃ a', s'.account? "alice" = some a' ∧
        a'.Transactions.map Transaction.ID = List.range' 1 a'.Transactions.length := by
  have hsome : ∃ s', runOps [Op.payment sampleParse "t1" ["food", "1"], Op.leave,
        Op.userLogin ["bob", "pw2"], Op.transfer sampleParse "t2" "t3" ["alice", "30"],
        Op.leave, Op.userLogin ["alice", "pw1"],
        Op.transfer sampleParse "t4" "t5" ["alice", "30"]]
        (twoAccounts (F64.ofInt 50) (F64.ofInt 50)) = some s' ∧
      (s'.history? "alice").map (List.map Transaction.Details) =
        some ["food", "Received from bob", "Transferred to alice", "Received from alice"] ∧
      (s'.history? "alice").map (List.map Transaction.ID) = some [1, 2, 3, 4] := by decide
  obtain ⟨s', hrun, hdet, hids⟩ := hsome
  obtain ⟨a', ha', hs, _, _⟩ := C14_transaction_ids_sequential _
    (twoAccounts (F64.ofInt 50) (F64.ofInt 50)) s' "alice"
    ⟨"alice", "pw1", F64.ofInt 50, true, []⟩ (by decide) rfl hrun
  exact ⟨s', hrun, hdet, hids, a', ha', hs⟩

/-! ## C11: deciding registrations -/

theorem GoMap.get?_delete_ne {V : Type} (m : GoMap V) (k k' : String) (h : k' ≠ k) :
    GoMap.get? (GoMap.delete m k) k' = GoMap.get? m k' := by
  induction m with
  | nil => rfl
  | cons kv m ih =>
    obtain ⟨k₁, v₁⟩ := kv
    by_cases h1 : k₁ = k
    · subst h1
      simp [GoMap.delete, GoMap.get?, ih, Ne.symm h]
    · simp [GoMap.delete, GoMap.get?, h1, ih]

theorem registrationDecided_registrations (s : State) (id : String) (reg : Registration)
    (ans : String) :
    (registrationDecided s id reg ans).registrations = GoMap.delete s.registrations id := by
  unfold registrationDecided
  by_cases hy : ans = "y" <;> simp [hy]

theorem registrationDecided_accounts_ne (s : State) (id : String) (reg : Registration)
    (ans : String) (k : String) (h : k ≠ id) :
    GoMap.get? (registrationDecided s id reg ans).accounts k = GoMap.get? s.accounts k := by
  unfold registrationDecided
  by_cases hy : ans = "y"
  · simp [hy, GoMap.get?_set_ne _ _ _ _ h]
  · simp [hy]

theorem registrationDecided_deref (s : State) (id : String) (reg : Registration)
    (ans : String) (p : ℕ) (a : Account) (h : s.deref p = some a) :
    (registrationDecided s id reg ans).deref p = some a := by
  by_cases hy : ans = "y"
  · exact deref_of_heap_append s _ [⟨id, reg.Password, F64.zero, true, []⟩]
      (by simp [registrationDecided, hy]) p a h
  · have e : (registrationDecided s id reg ans).heap = s.heap := by
      simp [registrationDecided, hy]
    simpa [State.deref, e] using h

theorem registrationDecided_yes (s : State) (id : String) (reg : Registration) :
    (registrationDecided s id reg "y").account? id =
      some ⟨id, reg.Password, F64.zero, true, []⟩ := by
  simp [registrationDecided, State.account?, GoMap.get?_set_same, State.deref]

theorem registrationDecided_no (s : State) (id : String) (reg : Registration) (ans : String)
    (h : ans ≠ "y") :
    (registrationDecided s id reg ans).accounts = s.accounts ∧
      (registrationDecided s id reg ans).heap = s.heap := by
  simp [registrationDecided, h]

theorem handleRegistrationsLoop_none (order : List String) (s : State) (id : String)
    (sc : List String) (hreg : GoMap.get? s.registrations id = none) :
    handleRegistrationsLoop (id :: order) s sc = handleRegistrationsLoop order s sc := by
  simp only [handleRegistrationsLoop, hreg]

theorem handleRegistrationsLoop_eof (order : List String) (s : State) (id : String)
    (reg : Registration) (hreg : GoMap.get? s.registrations id = some reg) :
    handleRegistrationsLoop (id :: order) s [] = ⟨s, [], []⟩ := by
  simp only [handleRegistrationsLoop, hreg]

theorem handleRegistrationsLoop_nil_input (order : List String) (s : State) :
    handleRegistrationsLoop order s [] = ⟨s, [], []⟩ := by
  induction order with
  | nil => rfl
  | cons id order ih =>
    cases hreg : GoMap.get? s.registrations id with
    | none => rw [handleRegistrationsLoop_none order s id [] hreg, ih]
    | some reg => exact handleRegistrationsLoop_eof order s id reg hreg

theorem handleRegistrationsLoop_append (pre post : List String) (s : State)
    (sc : List String) :
    handleRegistrationsLoop (pre ++ post) s sc =
      ⟨(handleRegistrationsLoop post (handleRegistrationsLoop pre s sc).st
          (handleRegistrationsLoop pre s sc).sc).st,
        (handleRegistrationsLoop post (handleRegistrationsLoop pre s sc).st
          (handleRegistrationsLoop pre s sc).sc).sc,
        (handleRegistrationsLoop pre s sc).out ++
          (handleRegistrationsLoop post (handleRegistrationsLoop pre s sc).st
            (handleRegistrationsLoop pre s sc).sc).out⟩ := by
  induction pre generalizing s sc with
  | nil => rfl
  | cons id pre ih =>
    cases hreg : GoMap.get? s.registrations id with
    | none =>
      rw [List.cons_append, handleRegistrationsLoop_none _ s id sc hreg,
        handleRegistrationsLoop_none _ s id sc hreg]
      exact ih s sc
    | some reg =>
      rcases sc with _ | ⟨ans, sc1⟩
      · rw [List.cons_append, handleRegistrationsLoop_eof _ s id reg hreg,
          handleRegistrationsLoop_eof _ s id reg hreg]
        simp [handleRegistrationsLoop_nil_input]
      · rw [List.cons_append, handleRegistrationsLoop_step _ s id reg ans sc1 hreg,
          handleRegistrationsLoop_step _ s id reg ans sc1 hreg]
        simp only
        rw [ih]
        simp

theorem handleRegistrationsLoop_deref (order : List String) (s : State) (sc : List String)
    (p : ℕ) (a : Account) (h : s.deref p = some a) :
    (handleRegistrationsLoop order s sc).st.deref p = some a := by
  induction order generalizing s sc with
  | nil => exact h
  | cons id order ih =>
    cases hreg : GoMap.get? s.registrations id with
    | none => rw [handleRegistrationsLoop_none order s id sc hreg]; exact ih s sc h
    | some reg =>
      rcases sc with _ | ⟨ans, sc1⟩
      · rw [handleRegistrationsLoop_eof order s id reg hreg]; exact h
      · rw [handleRegistrationsLoop_step order s id reg ans sc1 hreg]
        exact ih _ sc1 (registrationDecided_deref s id reg ans p a h)

theorem handleRegistrationsLoop_skip_key (order : List String) (s : State) (sc : List String)
    (k : String) (h : GoMap.get? s.registrations k = none) :
    GoMap.get? (handleRegistrationsLoop order s sc).st.accounts k = GoMap.get? s.accounts k ∧
      GoMap.get? (handleRegistrationsLoop order s sc).st.registrations k = none := by
  induction order generalizing s sc with
  | nil => exact ⟨rfl, h⟩
  | cons id order ih =>
    cases hreg : GoMap.get? s.registrations id with
    | none => rw [handleRegistrationsLoop_none order s id sc hreg]; exact ih s sc h
    | some reg =>
      have hk : k ≠ id := by
        intro hki
        rw [hki, hreg] at h
        cases h
      rcases sc with _ | ⟨ans, sc1⟩
      · rw [handleRegistrationsLoop_eof order s id reg hreg]; exact ⟨rfl, h⟩
      · rw [handleRegistrationsLoop_step order s id reg ans sc1 hreg]
        have h2 : GoMap.get? (registrationDecided s id reg ans).registrations k = none := by
          rw [registrationDecided_registrations, GoMap.get?_delete_ne _ _ _ hk]; exact h
        obtain ⟨i1, i2⟩ := ih (registrationDecided s id reg ans) sc1 h2
        exact ⟨i1.trans (registrationDecided_accounts_ne s id reg ans k hk), i2⟩

theorem handleRegistrationsLoop_pending (order : List String) (s : State) (sc : List String)
    (k : String) (reg : Registration)
    (h : GoMap.get? (handleRegistrationsLoop order s sc).st.registrations k = some reg) :
    GoMap.get? s.registrations k = some reg ∧
      GoMap.get? (handleRegistrationsLoop order s sc).st.accounts k = GoMap.get? s.accounts k := by
  induction order generalizing s sc with
  | nil => exact ⟨h, rfl⟩
  | cons id order ih =>
    cases hreg : GoMap.get? s.registrations id with
    | none =>
      rw [handleRegistrationsLoop_none order s id sc hreg] at h ⊢
      exact ih s sc h
    | some reg0 =>
      rcases sc with _ | ⟨ans, sc1⟩
      · rw [handleRegistrationsLoop_eof order s id reg0 hreg] at h ⊢
        exact ⟨h, rfl⟩
      · rw [handleRegistrationsLoop_step order s id reg0 ans sc1 hreg] at h ⊢
        simp only at h ⊢
        by_cases hk : k = id
        · have h2 : GoMap.get? (registrationDecided s id reg0 ans).registrations k = none := by
            rw [registrationDecided_registrations, hk, GoMap.get?_delete_same]
          rw [(handleRegistrationsLoop_skip_key order _ sc1 k h2).2] at h
          cases h
        · obtain ⟨i1, i2⟩ := ih (registrationDecided s id reg0 ans) sc1 h
          rw [registrationDecided_registrations, GoMap.get?_delete_ne _ _ _ hk] at i1
          exact ⟨i1, i2.trans (registrationDecided_accounts_ne s id reg0 ans k hk)⟩

theorem handleRegistrationsLoop_no_approval (order : List String) (s : State)
    (sc : List String) (h : ∀ x ∈ sc, x ≠ "y") :
    (handleRegistrationsLoop order s sc).st.accounts = s.accounts ∧
      (handleRegistrationsLoop order s sc).st.heap = s.heap := by
  induction order generalizing s sc with
  | nil => exact ⟨rfl, rfl⟩
  | cons id order ih =>
    cases hreg : GoMap.get? s.registrations id with
    | none => rw [handleRegistrationsLoop_none order s id sc hreg]; exact ih s sc h
    | some reg =>
      rcases sc with _ | ⟨ans, sc1⟩
      · rw [handleRegistrationsLoop_eof order s id reg hreg]; exact ⟨rfl, rfl⟩
      · rw [handleRegistrationsLoop_step order s id reg ans sc1 hreg]
        obtain ⟨i1, i2⟩ := ih (registrationDecided s id reg ans) sc1
          (fun x hx => h x (List.mem_cons_of_mem _ hx))
        obtain ⟨n1, n2⟩ := registrationDecided_no s id reg ans (h ans (List.mem_cons_self _ _))
        exact ⟨i1.trans n1, i2.trans n2⟩

/-- A ledger with no accounts and two pending registrations, bob/pw2 and
alice/pw1. -/
def twoRegistrations : State :=
  { heap := [], accounts := [],
    registrations := [("bob", ⟨"bob", "pw2"⟩), ("alice", ⟨"alice", "pw1"⟩)],
    topUpRequests := [], currentUser := none, nextTopUpID := 1 }

/-- C11: an admin pass visits the keys in the order `pre ++ id :: post`; when
it reaches `id`, after the visits of `pre`, the registration `reg` of `id` is
pending and the next input line is `ans`. Then, in the state the whole pass
`handleRegistrations` leaves:
the registration was pending before the pass and is gone after it;
after the answer "y" the accounts table holds under `id` an account with that
id, the registered password, balance 0, `Approved = true` and an empty history,
and a login with that id and password succeeds on that state, with a session
whose balance is 0;
after any other answer the table entry of `id` is what it was before the pass
(none if there was none) and the account it held is unchanged;
every account object that existed before the pass is unchanged, and a pass in
which no answer is "y" leaves the accounts table and the objects as they were;
a pass that visits every pending key and has an answer for each leaves no
pending registration. The first conjunct relates the pass to the decision: the
pass ends in the state reached from the state right after this decision by the
visits of `post`. -/
theorem C11_registration_decision (pre post : List String) (s : State) (sc : List String)
    (id : String) (reg : Registration) (ans : String) (rest : List String)
    (hreg : GoMap.get? (handleRegistrationsLoop pre s sc).st.registrations id = some reg)
    (hans : (handleRegistrationsLoop pre s sc).sc = ans :: rest) :
    (handleRegistrations (pre ++ id :: post) s sc).st =
      (handleRegistrationsLoop post
        (registrationDecided (handleRegistrationsLoop pre s sc).st id reg ans) rest).st ∧
    GoMap.get? s.registrations id = some reg ∧
    GoMap.get? (handleRegistrations (pre ++ id :: post) s sc).st.registrations id = none ∧
    (ans = "y" →
      (handleRegistrations (pre ++ id :: post) s sc).st.account? id =
        some ⟨id, reg.Password, F64.zero, true, []⟩ ∧
      ∀ more, ∃ r,
        loginusr (handleRegistrations (pre ++ id :: post) s sc).st (id :: reg.Password :: more) =
          some (r, true) ∧
        r.st.user? = some ⟨id, reg.Password, F64.zero, true, []⟩ ∧
        r.st.user?.map Account.Balance = some F64.zero) ∧
    (ans ≠ "y" →
      GoMap.get? (handleRegistrations (pre ++ id :: post) s sc).st.accounts id =
        GoMap.get? s.accounts id ∧
      ∀ a, s.account? id = some a →
        (handleRegistrations (pre ++ id :: post) s sc).st.account? id = some a) ∧
    (∀ p a, s.deref p = some a →
      (handleRegistrations (pre ++ id :: post) s sc).st.deref p = some a) ∧
    ((∀ x ∈ sc, x ≠ "y") →
      (handleRegistrations (pre ++ id :: post) s sc).st.accounts = s.accounts ∧
      (handleRegistrations (pre ++ id :: post) s sc).st.heap = s.heap) ∧
    ((∀ kv ∈ s.registrations, kv.1 ∈ pre ++ id :: post) →
      (pre ++ id :: post).length ≤ sc.length →
      (handleRegistrations (pre ++ id :: post) s sc).st.registrations = []) := by
  have hpend := handleRegistrationsLoop_pending pre s sc id reg hreg
  have hfinal : (handleRegistrations (pre ++ id :: post) s sc).st =
      (handleRegistrationsLoop post
        (registrationDecided (handleRegistrationsLoop pre s sc).st id reg ans) rest).st := by
    unfold handleRegistrations
    rw [handleRegistrationsLoop_append pre (id :: post) s sc, hans,
      handleRegistrationsLoop_step post _ id reg ans rest hreg]
  have hgone : GoMap.get?
      (registrationDecided (handleRegistrationsLoop pre s sc).st id reg ans).registrations id =
      none := by
    rw [registrationDecided_registrations, GoMap.get?_delete_same]
  have hskip := handleRegistrationsLoop_skip_key post
    (registrationDecided (handleRegistrationsLoop pre s sc).st id reg ans) rest id hgone
  have hobj : ∀ p a, s.deref p = some a →
      (handleRegistrations (pre ++ id :: post) s sc).st.deref p = some a :=
    fun p a h => handleRegistrationsLoop_deref (pre ++ id :: post) s sc p a h
  refine ⟨hfinal, hpend.1, by rw [hfinal]; exact hskip.2, ?_, ?_, hobj,
    fun hno => handleRegistrationsLoop_no_approval (pre ++ id :: post) s sc hno, ?_⟩
  · intro hy
    subst hy
    have hacc : (handleRegistrations (pre ++ id :: post) s sc).st.account? id =
        some ⟨id, reg.Password, F64.zero, true, []⟩ := by
      have h1 := registrationDecided_yes (handleRegistrationsLoop pre s sc).st id reg
      simp only [State.account?] at h1 ⊢
      rw [hfinal, hskip.1]
      cases hp : GoMap.get?
          (registrationDecided (handleRegistrationsLoop pre s sc).st id reg "y").accounts id with
      | none => simp [hp] at h1
      | some p =>
        simp only [hp, Option.some_bind] at h1 ⊢
        exact handleRegistrationsLoop_deref post _ rest p _ h1
    refine ⟨hacc, fun more => ⟨_, loginusr_success _ id reg.Password more _ hacc rfl rfl, ?_⟩⟩
    have hu : State.user? { (handleRegistrations (pre ++ id :: post) s sc).st with
        currentUser := GoMap.get? (handleRegistrations (pre ++ id :: post) s sc).st.accounts id } =
        (handleRegistrations (pre ++ id :: post) s sc).st.account? id := rfl
    simp [hu, hacc]
  · intro hy
    have hent : GoMap.get? (handleRegistrations (pre ++ id :: post) s sc).st.accounts id =
        GoMap.get? s.accounts id := by
      rw [hfinal, hskip.1, (registrationDecided_no _ id reg ans hy).1]
      exact hpend.2
    refine ⟨hent, fun a ha => ?_⟩
    simp only [State.account?, hent] at ha ⊢
    cases hp : GoMap.get? s.accounts id with
    | none => simp [hp] at ha
    | some p =>
      simp only [hp, Option.some_bind] at ha ⊢
      exact hobj p a ha
  · intro hkeys hlen
    unfold handleRegistrations
    rw [handleRegistrationsLoop_registrations (pre ++ id :: post) s sc hlen]
    rw [List.filter_eq_nil_iff]
    intro kv hkv
    have h3 := hkeys kv hkv
    simp [h3]

/-- Witness for C11: the pass visits bob and then alice; bob is answered "n"
and alice "y". After the pass alice has the fresh account and can log in, bob
has none, and no registration is pending. -/
theorem C11_registration_decision_witness :
    (handleRegistrations ["bob", "alice"] twoRegistrations ["n", "y"]).st.account? "alice" =
      some ⟨"alice", "pw1", F64.zero, true, []⟩ ∧
    (handleRegistrations ["bob", "alice"] twoRegistrations ["n", "y"]).st.account? "bob" = none ∧
    (handleRegistrations ["bob", "alice"] twoRegistrations ["n", "y"]).st.registrations = [] ∧
    ∃ r, loginusr (handleRegistrations ["bob", "alice"] twoRegistrations ["n", "y"]).st
        ["alice", "pw1"] = some (r, true) ∧
      r.st.user?.map Account.Balance = some F64.zero := by
  have h := C11_registration_decision ["bob"] [] twoRegistrations ["n", "y"] "alice"
    ⟨"alice", "pw1"⟩ "y" [] (by decide) (by decide)
  obtain ⟨_, _, _, hyes, _, _, _, hall⟩ := h
  obtain ⟨hacc, hlogin⟩ := hyes rfl
  obtain ⟨r, hr, _, hbal⟩ := hlogin []
  exact ⟨hacc, by decide, hall (by decide) (by decide), r, hr, hbal⟩

/-! ## C9: approving a top-up request anywhere in a pass -/

theorem handleTopUpLoop_nil_input (todo : List TopUpRequest) (i : ℕ) (s : State) :
    handleTopUpLoop todo i s [] = some ⟨s, [], []⟩ := by
  induction todo generalizing i with
  | nil => rfl
  | cons request todo ih =>
    by_cases happ : request.Approved = true
    · rw [handleTopUpLoop_done request todo i s [] happ]; exact ih (i + 1)
    · exact handleTopUpLoop_eof request todo i s (by simpa using happ)

theorem passRequests_length (todo : List TopUpRequest) (sc : List String) :
    (passRequests todo sc).length = todo.length := by
  induction todo generalizing sc with
  | nil => rfl
  | cons request todo ih =>
    by_cases happ : request.Approved = true
    · simp [passRequests, happ, ih]
    · rcases sc with _ | ⟨ans, sc1⟩
      · simp [passRequests, happ]
      · simp [passRequests, happ, ih]

theorem handleTopUpLoop_append (pre todo : List TopUpRequest) (i : ℕ) (s : State)
    (sc : List String) :
    handleTopUpLoop (pre ++ todo) i s sc =
      (handleTopUpLoop pre i s sc).bind (fun r1 =>
        (handleTopUpLoop todo (i + pre.length) r1.st r1.sc).map
          (fun r => ⟨r.st, r.sc, r1.out ++ r.out⟩)) := by
  induction pre generalizing i s sc with
  | nil =>
    cases h : handleTopUpLoop todo i s sc <;> simp [handleTopUpLoop, h]
  | cons request pre ih =>
    have eidx : i + 1 + pre.length = i + (request :: pre).length := by
      simp only [List.length_cons]; omega
    by_cases happ : request.Approved = true
    · rw [List.cons_append, handleTopUpLoop_done request _ i s sc happ,
        handleTopUpLoop_done request _ i s sc happ, ih, eidx]
    have happ' : request.Approved = false := by simpa using happ
    rcases sc with _ | ⟨ans, sc1⟩
    · rw [List.cons_append, handleTopUpLoop_eof request _ i s happ',
        handleTopUpLoop_eof request _ i s happ']
      simp [handleTopUpLoop_nil_input]
    by_cases hy : ans = "y"
    · subst hy
      cases hp : GoMap.get? s.accounts request.AccountID with
      | none => simp [handleTopUpLoop, happ', hp]
      | some p =>
        cases ha : s.deref p with
        | none => simp [handleTopUpLoop, happ', hp, ha]
        | some account =>
          rw [List.cons_append, handleTopUpLoop_yes request _ i s sc1 p account happ' hp ha,
            handleTopUpLoop_yes request _ i s sc1 p account happ' hp ha, ih, eidx]
          cases h1 : handleTopUpLoop pre (i + 1) (topUpApproved s p account request i) sc1 with
          | none => rfl
          | some r1 =>
            simp only [Option.some_bind, Option.map_some', Option.map_map]
            cases h2 : handleTopUpLoop todo (i + (request :: pre).length) r1.st r1.sc with
            | none => rfl
            | some r2 => simp
    · rw [List.cons_append, handleTopUpLoop_no request _ i s ans sc1 happ' hy,
        handleTopUpLoop_no request _ i s ans sc1 happ' hy, ih, eidx]
      cases h1 : handleTopUpLoop pre (i + 1) s sc1 with
      | none => rfl
      | some r1 =>
        simp only [Option.some_bind, Option.map_some', Option.map_map]
        cases h2 : handleTopUpLoop todo (i + (request :: pre).length) r1.st r1.sc with
        | none => rfl
        | some r2 => simp

/-- Alice and bob have 0; bob's request of 30 and alice's request of 40 are
pending, bob's first. -/
def bobThenAlice : State :=
  { twoAccounts F64.zero F64.zero with
    topUpRequests := [⟨1, "bob", F64.ofInt 30, "t0", false⟩, ⟨2, "alice", F64.ofInt 40, "t0", false⟩]
    nextTopUpID := 3 }

/-- C9 (amended): in a state where every table entry points to the object
carrying its key and every request names a key, take any pending request
`request` of the list, whatever stands before it (approved, declined earlier
or declined in this pass) and after it. Let `r1` be what the pass has done when
it reaches `request`, its next input line being "y". Then the account object of
`request.AccountID` exists, and the approval takes `r1.st` to the state
`topUpApproved`, from which the pass goes on with the later requests. In that
step the balance of the account `request.AccountID` becomes the `float64` sum
of its balance and `request.Amount`, every other account keeps its balance,
every account keeps its id, password, flag and history, the request list
changes only in that `request.Approved` becomes true, and the accounts table is
unchanged. The pass returns; in the state it leaves the request is approved and
the balance of every account is what the earlier requests of the pass made of
it, plus this amount for the account of `request`, plus what the later requests
add. When no later request is pending the pass ends in `topUpApproved`. -/
theorem C9_topup_approval (s : State) (pre post : List TopUpRequest) (request : TopUpRequest)
    (sc rest : List String) (r1 : Run) (ht : TableOk s) (hr : RequestsOk s)
    (hreqs : s.topUpRequests = pre ++ request :: post)
    (hpend : request.Approved = false)
    (hrun : handleTopUpLoop pre 0 s sc = some r1)
    (hans : r1.sc = "y" :: rest) :
    ∃ p account,
      GoMap.get? s.accounts request.AccountID = some p ∧ r1.st.deref p = some account ∧
      handleTopUpRequests s sc =
        (handleTopUpLoop post (pre.length + 1)
          (topUpApproved r1.st p account request pre.length) rest).map
          (fun r => ⟨r.st, r.sc, r1.out ++ "Top up approved." :: r.out⟩) ∧
      r1.st.topUpRequests = passRequests pre sc ++ request :: post ∧
      (topUpApproved r1.st p account request pre.length).topUpRequests =
        passRequests pre sc ++ { request with Approved := true } :: post ∧
      (∀ id a, r1.st.account? id = some a →
        (topUpApproved r1.st p account request pre.length).account? id =
          some { a with Balance :=
            if request.AccountID = id then F64.add a.Balance request.Amount else a.Balance }) ∧
      (topUpApproved r1.st p account request pre.length).accounts = s.accounts ∧
      (∃ r, handleTopUpRequests s sc = some r ∧
        r.st.accounts = s.accounts ∧
        r.st.topUpRequests =
          passRequests pre sc ++ { request with Approved := true } :: passRequests post rest ∧
        ∀ id a, s.account? id = some a →
          r.st.account? id = some { a with Balance :=
            (passCredit id
              (if request.AccountID = id then
                F64.add (passCredit id a.Balance pre sc) request.Amount
              else passCredit id a.Balance pre sc) post rest) }) ∧
      ((∀ x ∈ post, x.Approved = true) →
        handleTopUpRequests s sc =
          some ⟨topUpApproved r1.st p account request pre.length, rest,
            r1.out ++ ["Top up approved."]⟩) := by
  have hkpre : ∀ req ∈ pre, (GoMap.get? s.accounts req.AccountID).isSome = true :=
    fun req hreq => hr req (by rw [hreqs]; exact List.mem_append_left _ hreq)
  have hkpost : ∀ req ∈ post, (GoMap.get? s.accounts req.AccountID).isSome = true :=
    fun req hreq => hr req (by
      rw [hreqs]; exact List.mem_append_right _ (List.mem_cons_of_mem _ hreq))
  -- the pass over the earlier requests
  obtain ⟨r1', h1', hacc1, hreqs1, hbal1⟩ :=
    handleTopUpLoop_spec pre [] (request :: post) s sc ht hkpre (by simp [hreqs])
  have e1 : handleTopUpLoop pre 0 s sc = some r1' := h1'
  rw [hrun] at e1
  cases e1
  obtain ⟨r1'', h1'', hsame1⟩ := handleTopUpLoop_inv pre 0 s sc ht hkpre
  rw [hrun] at h1''
  cases h1''
  have ht1 : TableOk r1.st := TableOk_of_sameIds _ _ hsame1 ht
  have hreqs1' : r1.st.topUpRequests = passRequests pre sc ++ request :: post := by
    simpa using hreqs1
  -- the account of the request
  obtain ⟨p, hp⟩ := Option.isSome_iff_exists.mp
    (hr request (by rw [hreqs]; exact List.mem_append_right _ (List.mem_cons_self _ _)))
  have hp1 : GoMap.get? r1.st.accounts request.AccountID = some p := by rw [hacc1]; exact hp
  obtain ⟨account, ha, _⟩ := ht1 _ p hp1
  -- the step
  have hstep : handleTopUpRequests s sc =
      (handleTopUpLoop post (pre.length + 1)
        (topUpApproved r1.st p account request pre.length) rest).map
        (fun r => ⟨r.st, r.sc, r1.out ++ "Top up approved." :: r.out⟩) := by
    unfold handleTopUpRequests
    rw [hreqs, handleTopUpLoop_append pre (request :: post) 0 s sc, hrun]
    simp only [Option.some_bind, Nat.zero_add]
    rw [hans, handleTopUpLoop_yes request post pre.length r1.st rest p account hpend hp1 ha,
      Option.map_map]
    rfl
  have hlist : (topUpApproved r1.st p account request pre.length).topUpRequests =
      passRequests pre sc ++ { request with Approved := true } :: post := by
    have hl := passRequests_length pre sc
    simp only [topUpApproved, hreqs1']
    rw [← hl, modify_append_length]
  have hsameS := SameIds_topUpApproved r1.st p account request pre.length ha
  have htS : TableOk (topUpApproved r1.st p account request pre.length) :=
    TableOk_of_sameIds _ _ hsameS ht1
  have haccS : (topUpApproved r1.st p account request pre.length).accounts = s.accounts :=
    hacc1
  have hbalS := account?_topUpApproved r1.st p account request pre.length ht1 hp1 ha
  -- the later requests
  obtain ⟨r2, h2, hacc2, hreqs2, hbal2⟩ :=
    handleTopUpLoop_spec post (passRequests pre sc ++ [{ request with Approved := true }]) []
      (topUpApproved r1.st p account request pre.length) rest htS
      (fun req hreq => by rw [haccS]; exact hkpost req hreq) (by simp [hlist])
  have hlen2 : (passRequests pre sc ++ [{ request with Approved := true }]).length =
      pre.length + 1 := by simp [passRequests_length]
  rw [hlen2] at h2
  refine ⟨p, account, hp, ha, hstep, hreqs1', hlist, hbalS, haccS, ?_, ?_⟩
  · refine ⟨⟨r2.st, r2.sc, r1.out ++ "Top up approved." :: r2.out⟩, by rw [hstep, h2]; rfl,
      hacc2.trans haccS, by simpa using hreqs2, ?_⟩
    intro id a hida
    have hb1 := hbal1 id a hida
    have hbS := hbalS id _ hb1
    have hb2 := hbal2 id _ hbS
    simpa using hb2
  · intro hall
    rw [hstep, handleTopUpLoop_approved post _ _ rest hall]
    rfl

/-- Witness for C9: the admin declines bob's request and then approves alice's
request for 40. Alice's balance goes from 0 to 40, bob's stays 0, alice's
request is approved, bob's stays pending, and no history has grown. -/
theorem C9_topup_approval_witness :
    ∃ r, handleTopUpRequests bobThenAlice ["n", "y"] = some r ∧
      r.st.balance? "alice" = some (F64.ofInt 40) ∧
      r.st.balance? "bob" = some F64.zero ∧
      r.st.topUpRequests.map TopUpRequest.Approved = [false, true] ∧
      r.st.history? "alice" = some [] ∧ r.st.history? "bob" = some [] := by
  obtain ⟨_, _, _, _, _, _, _, _, _, ⟨r, hr, _, hreqs, hbal⟩, _⟩ :=
    C9_topup_approval bobThenAlice [⟨1, "bob", F64.ofInt 30, "t0", false⟩] []
      ⟨2, "alice", F64.ofInt 40, "t0", false⟩ ["n", "y"] []
      ⟨bobThenAlice, ["y"], ["Top up rejected."]⟩
      (TableOk_of_twoAccounts bobThenAlice F64.zero F64.zero rfl rfl)
      (by intro req hreq
          simp only [bobThenAlice, List.mem_cons, List.mem_singleton, List.not_mem_nil,
            or_false] at hreq
          rcases hreq with h | h <;> rw [h] <;> decide)
      rfl rfl (by decide) rfl
  have ha := hbal "alice" ⟨"alice", "pw1", F64.zero, true, []⟩ (by decide)
  have hb := hbal "bob" ⟨"bob", "pw2", F64.zero, true, []⟩ (by decide)
  refine ⟨r, hr, ?_, ?_, ?_, ?_, ?_⟩
  · simp only [State.balance?, ha, Option.map_some']
    decide
  · simp only [State.balance?, hb, Option.map_some']
    decide
  · rw [hreqs]; decide
  · simp only [State.history?, ha, Option.map_some']
  · simp only [State.history?, hb, Option.map_some']
